import Mathlib

set_option maxHeartbeats 1000000
set_option maxRecDepth 8192

namespace DevMan

/-!
Verification development for the DevMan runtime core.

Each definition in this file is a shallow embedding of a function of the
Rust sources (`src/types.rs`, `src/context.rs`, `src/cron.rs`,
`src/agent.rs`, `src/tools/mod.rs`, `src/memory.rs`, `src/cli/serve.rs`).
String lengths are counted in characters; the Rust code counts bytes, and
the two coincide on single-byte text, which is the regime all concrete
inputs below live in.
-/

/-! ## Core message data model (src/types.rs) -/

inductive Role where
  | user
  | assistant
deriving DecidableEq, Repr

structure ImageSource where
  sourceType : String
  mediaType : String
  data : String
deriving DecidableEq, Repr

/-- Content block within a message (src/types.rs `ContentBlock`).
`ToolUse.input` is a `serde_json::Value` in the source; the model carries
its serialized text, which is the only view the verified code uses
(`input.to_string()` in token estimation, opaque passing elsewhere). -/
inductive ContentBlock where
  | text (text : String)
  | image (source : ImageSource)
  | toolUse (id : String) (name : String) (input : String)
  | toolResult (toolUseId : String) (content : String) (isError : Option Bool)
  | thinking (thinking : String) (signature : String)
deriving DecidableEq, Repr

structure Message where
  role : Role
  content : List ContentBlock
deriving DecidableEq, Repr

/-- Token usage (src/types.rs `Usage`); the cache counters are never read
by the verified code and are omitted. -/
structure Usage where
  inputTokens : Nat
  outputTokens : Nat
deriving DecidableEq, Repr

def Usage.addU (a b : Usage) : Usage :=
  { inputTokens := a.inputTokens + b.inputTokens,
    outputTokens := a.outputTokens + b.outputTokens }

/-! ## Context store (src/context.rs `ContextManager`)

The `persist_path` field and the `save`/`with_persistence` operations are
filesystem plumbing orthogonal to the verified claims and are not carried
in the state. -/

structure ContextManager where
  messages : List Message
  totalInputTokens : Nat
  totalOutputTokens : Nat
deriving DecidableEq, Repr

def ContextManager.addUserMessage (ctx : ContextManager) (text : String) : ContextManager :=
  { ctx with messages := ctx.messages ++ [{ role := .user, content := [ContentBlock.text text] }] }

def ContextManager.addAssistantMessage (ctx : ContextManager) (content : List ContentBlock) : ContextManager :=
  { ctx with messages := ctx.messages ++ [{ role := .assistant, content := content }] }

def ContextManager.addToolResult (ctx : ContextManager) (toolUseId : String)
    (content : String) (isError : Bool) : ContextManager :=
  { ctx with messages := ctx.messages ++
      [{ role := .user,
         content := [ContentBlock.toolResult toolUseId content
            (if isError then some true else none)] }] }

/-- Character count a block contributes to the token estimate
(src/context.rs `estimated_tokens`, the match inside the map). -/
def blockChars : ContentBlock → Nat
  | .text t => t.length
  | .toolUse _ _ input => input.length
  | .toolResult _ content _ => content.length
  | .thinking t _ => t.length
  | .image _ => 1000

/-- Rough token estimate: character sum over all blocks divided by 4
(src/context.rs `estimated_tokens`). -/
def ContextManager.estimatedTokens (ctx : ContextManager) : Nat :=
  ((ctx.messages.flatMap Message.content).map blockChars).sum / 4

/-- Character-list implementation of Rust's `str` slicing `&s[..n]`
(structural recursion, so the kernel can evaluate it). -/
def strTake (s : String) (n : Nat) : String := String.mk (s.data.take n)

/-- Whitespace per Rust `char::is_whitespace`, restricted to the ASCII
whitespace that can occur in the modelled strings. -/
def isWsChar (c : Char) : Bool := c = ' ' || c = '\t' || c = '\n' || c = '\r'

/-- Character-list implementation of Rust `str::trim`. -/
def strTrim (s : String) : String :=
  String.mk (((s.data.dropWhile isWsChar).reverse.dropWhile isWsChar).reverse)

def roleName : Role → String
  | .user => "User"
  | .assistant => "Assistant"

/-- One block's contribution to the compaction summary
(src/context.rs `compact`, the inner match over blocks). -/
def blockSummaryLine (role : String) : ContentBlock → String
  | .text t => if t ≠ "" then role ++ ": " ++ t ++ "\n" else ""
  | .toolUse _ name _ => role ++ ": [used tool: " ++ name ++ "]\n"
  | .toolResult _ content _ =>
      let preview := if content.length > 200 then strTake content 200 ++ "..." else content
      role ++ ": [tool result: " ++ preview ++ "]\n"
  | _ => ""

/-- The `recent_text` accumulation of src/context.rs `compact`. -/
def recentText (msgs : List Message) : String :=
  msgs.foldl
    (fun acc m =>
      m.content.foldl (fun a b => a ++ blockSummaryLine (roleName m.role) b) acc)
    ""

/-- The `summary` string built by src/context.rs `compact`. -/
def compactSummary (ctx : ContextManager) (keepRecent : Nat) : String :=
  let rt := recentText (ctx.messages.drop (ctx.messages.length - keepRecent))
  "[Conversation compacted — " ++ toString ctx.messages.length ++ " messages removed. "
    ++ toString ctx.totalInputTokens ++ " input tokens, "
    ++ toString ctx.totalOutputTokens ++ " output tokens used so far.]\nRecent context:\n"
    ++ strTrim rt

/-- The fixed assistant acknowledgement seeded by `compact`. -/
def ackText : String :=
  "Understood, I have the context from our conversation so far. How can I help?"

/-- src/context.rs `ContextManager::compact`: early return when the
conversation is short, otherwise replace the whole message list by the
two-message summary prelude. -/
def ContextManager.compact (ctx : ContextManager) (keepRecent : Nat) : ContextManager :=
  if ctx.messages.length ≤ keepRecent + 1 then ctx
  else
    { ctx with messages :=
        [ { role := .user, content := [ContentBlock.text (compactSummary ctx keepRecent)] },
          { role := .assistant, content := [ContentBlock.text ackText] } ] }

/-- Number of ToolUse/ToolResult blocks across a message list. -/
def toolBlockCount (msgs : List Message) : Nat :=
  ((msgs.flatMap Message.content).filter fun b =>
    match b with
    | .toolUse _ _ _ => true
    | .toolResult _ _ _ => true
    | _ => false).length

/-! Concrete conversations used as witnesses. -/

/-- A 20-message conversation with three interleaved (ToolUse, ToolResult)
pairs, matching the spec's compaction scenario. -/
def demo20 : ContextManager :=
  { messages :=
      [ { role := .user, content := [ContentBlock.text "m1"] },
        { role := .assistant, content := [ContentBlock.text "m2"] },
        { role := .user, content := [ContentBlock.text "m3"] },
        { role := .assistant, content := [ContentBlock.text "calling",
            ContentBlock.toolUse "tu1" "shell" "{}"] },
        { role := .user, content := [ContentBlock.toolResult "tu1" "out1" none] },
        { role := .assistant, content := [ContentBlock.text "m6"] },
        { role := .user, content := [ContentBlock.text "m7"] },
        { role := .assistant, content := [ContentBlock.text "m8"] },
        { role := .user, content := [ContentBlock.text "m9"] },
        { role := .assistant, content := [ContentBlock.toolUse "tu2" "read_file" "{}"] },
        { role := .user, content := [ContentBlock.toolResult "tu2" "out2" (some true)] },
        { role := .assistant, content := [ContentBlock.text "m12"] },
        { role := .user, content := [ContentBlock.text "m13"] },
        { role := .assistant, content := [ContentBlock.text "m14"] },
        { role := .user, content := [ContentBlock.text "m15"] },
        { role := .assistant, content := [ContentBlock.toolUse "tu3" "write_file" "{}"] },
        { role := .user, content := [ContentBlock.toolResult "tu3" "out3" none] },
        { role := .assistant, content := [ContentBlock.text "m18"] },
        { role := .user, content := [ContentBlock.text "m19"] },
        { role := .assistant, content := [ContentBlock.text "m20"] } ],
    totalInputTokens := 1234,
    totalOutputTokens := 567 }

/-- An 8-message conversation of one-character texts: its token estimate is
tiny, so the compaction summary is larger than the original content. -/
def tiny8 : ContextManager :=
  { messages :=
      [ { role := .user, content := [ContentBlock.text "a"] },
        { role := .assistant, content := [ContentBlock.text "b"] },
        { role := .user, content := [ContentBlock.text "c"] },
        { role := .assistant, content := [ContentBlock.text "d"] },
        { role := .user, content := [ContentBlock.text "e"] },
        { role := .assistant, content := [ContentBlock.text "f"] },
        { role := .user, content := [ContentBlock.text "g"] },
        { role := .assistant, content := [ContentBlock.text "h"] } ],
    totalInputTokens := 0,
    totalOutputTokens := 0 }

/-- A 2-message conversation whose token estimate is far above the
80 000 compaction threshold (400 image blocks at ≈1000 tokens each). -/
def shortHuge : ContextManager :=
  { messages :=
      [ { role := .user,
          content := List.replicate 400 (ContentBlock.image ⟨"base64", "image/png", "xx"⟩) },
        { role := .assistant, content := [ContentBlock.text "ok"] } ],
    totalInputTokens := 9,
    totalOutputTokens := 9 }

/-! ## Cron wheel (src/cron.rs)

Instants (`chrono::DateTime<Utc>`) are modelled as integer milliseconds
since the Unix epoch; chrono's calendar is the proleptic Gregorian
calendar without leap seconds, so its field accessors are exactly the
civil-calendar functions below. -/

inductive Schedule where
  | atTime (a : Int)
  | every (intervalMs : Nat) (anchor : Option Int)
  | cron (expr : String)
deriving DecidableEq, Repr

def msPerMinute : Int := 60000

def msPerDay : Int := 86400000

/-- Split a character list at every separator character (Rust
`str::split(c)`: keeps empty chunks). -/
def splitPredAux (p : Char → Bool) : List Char → List Char → List (List Char)
  | [], acc => [acc.reverse]
  | x :: xs, acc =>
      if p x then acc.reverse :: splitPredAux p xs []
      else splitPredAux p xs (x :: acc)

def strSplitOnChar (s : String) (c : Char) : List String :=
  (splitPredAux (fun x => x = c) s.data []).map String.mk

/-- Rust `str::split_whitespace`: split on whitespace, dropping empty
chunks. -/
def strFields (s : String) : List String :=
  ((splitPredAux isWsChar s.data []).filter (fun l => l ≠ [])).map String.mk

def digitsToNatAux : List Char → Nat → Option Nat
  | [], acc => some acc
  | c :: cs, acc =>
      if c.isDigit then digitsToNatAux cs (acc * 10 + (c.toNat - '0'.toNat))
      else none

/-- Rust `str::parse::<u32>`: an optional leading `+`, one or more ASCII
digits, and the value must fit in 32 bits. -/
def parseU32 (s : String) : Option Nat :=
  let cs := if s.data.head? = some '+' then s.data.tail else s.data
  if cs = [] then none
  else
    match digitsToNatAux cs 0 with
    | some n => if n < 4294967296 then some n else none
    | none => none

/-- Rust `str::strip_prefix("*/")`. -/
def stripStepPrefix (s : String) : Option String :=
  match s.data with
  | '*' :: '/' :: rest => some (String.mk rest)
  | _ => none

/-- The `(min..=max).collect()` range. -/
def rangeList (lo hi : Nat) : List Nat :=
  (List.range (hi + 1 - lo)).map (fun k => lo + k)

/-- The `*/N` while-loop of `parse_cron_field`: `v = min; while v <= max
{ push v; v += n }`. Fuel `hi + 1` bounds the iteration count for any
`n ≥ 1`. -/
def stepValuesAux (hi n : Nat) : Nat → Nat → List Nat
  | 0, _ => []
  | fuel + 1, v => if v ≤ hi then v :: stepValuesAux hi n fuel (v + n) else []

def stepValues (lo hi n : Nat) : List Nat :=
  stepValuesAux hi n (hi + 1) lo

def insertSorted (x : Nat) : List Nat → List Nat
  | [] => [x]
  | y :: ys => if x ≤ y then x :: y :: ys else y :: insertSorted x ys

/-- Ascending stable sort; on `Nat` values this yields exactly the list
`Vec::sort` produces. -/
def sortNat : List Nat → List Nat
  | [] => []
  | x :: xs => insertSorted x (sortNat xs)

/-- Rust `Vec::dedup`: drop consecutive duplicates. -/
def dedupConsec : List Nat → List Nat
  | [] => []
  | [x] => [x]
  | x :: y :: rest =>
      if x = y then dedupConsec (y :: rest) else x :: dedupConsec (y :: rest)

/-- src/cron.rs `parse_cron_field`: iterate over comma-separated parts; a
bare `*` returns the whole range at once; `*/N` contributes the stepped
values; a plain in-range number contributes itself; everything else is
ignored. The accumulated values are sorted and deduplicated. -/
def parseCronFieldAux (lo hi : Nat) : List String → List Nat → List Nat
  | [], values => dedupConsec (sortNat values)
  | part :: rest, values =>
      let part := strTrim part
      if part = "*" then rangeList lo hi
      else
        match stripStepPrefix part with
        | some step =>
            match parseU32 step with
            | some n =>
                if n > 0 then parseCronFieldAux lo hi rest (values ++ stepValues lo hi n)
                else parseCronFieldAux lo hi rest values
            | none => parseCronFieldAux lo hi rest values
        | none =>
            match parseU32 part with
            | some n =>
                if lo ≤ n ∧ n ≤ hi then parseCronFieldAux lo hi rest (values ++ [n])
                else parseCronFieldAux lo hi rest values
            | none => parseCronFieldAux lo hi rest values

def parseCronField (field : String) (lo hi : Nat) : List Nat :=
  parseCronFieldAux lo hi (strSplitOnChar field ',') []

/-- Days since 1970-01-01 (floor). -/
def daysSinceEpoch (t : Int) : Int := t / msPerDay

def msOfDay (t : Int) : Int := t % msPerDay

def hourOf (t : Int) : Nat := (msOfDay t / 3600000).toNat

def minuteOf (t : Int) : Nat := ((msOfDay t / 60000) % 60).toNat

/-- `Datelike::weekday().num_days_from_sunday()`: 1970-01-01 was a
Thursday, so day 0 maps to 4 with Sunday = 0. -/
def weekdayOf (t : Int) : Nat := ((daysSinceEpoch t + 4) % 7).toNat

/-- Month and day of month from the day-of-era `doe ∈ [0, 146096]` of a
400-year Gregorian era starting March 1 (the standard civil-from-days
computation chrono's `month()`/`day()` accessors realize). Returns
`(yoe, month, day)` where `yoe` is the year-of-era before the
January/February adjustment. -/
def civilOfDoe (doe : Nat) : Nat × Nat × Nat :=
  let yoe := (doe - doe / 1460 + doe / 36524 - doe / 146096) / 365
  let doy := doe - (365 * yoe + yoe / 4 - yoe / 100)
  let mp := (5 * doy + 2) / 153
  let d := doy - (153 * mp + 2) / 5 + 1
  let m := if mp < 10 then mp + 3 else mp - 9
  (yoe, m, d)

/-- Proleptic-Gregorian `(year, month, day)` from days since 1970-01-01. -/
def civilFromDays (z : Int) : Int × Nat × Nat :=
  let zs := z + 719468
  let era := zs / 146097
  let doe := (zs % 146097).toNat
  let c := civilOfDoe doe
  let y := era * 400 + c.1
  ((if c.2.1 ≤ 2 then y + 1 else y), c.2.1, c.2.2)

def monthOf (t : Int) : Nat := (civilFromDays (daysSinceEpoch t)).2.1

def dayOf (t : Int) : Nat := (civilFromDays (daysSinceEpoch t)).2.2

/-- The five parsed field sets of a cron expression. -/
structure CronSets where
  minutes : List Nat
  hours : List Nat
  doms : List Nat
  months : List Nat
  dows : List Nat
deriving DecidableEq, Repr

/-- Field splitting and per-field parsing of src/cron.rs `cron_next`
(`None` when the expression does not have exactly five fields). -/
def parseCronSets (expr : String) : Option CronSets :=
  let fields := strFields expr
  if fields.length = 5 then
    some { minutes := parseCronField (fields.getD 0 "") 0 59,
           hours := parseCronField (fields.getD 1 "") 0 23,
           doms := parseCronField (fields.getD 2 "") 1 31,
           months := parseCronField (fields.getD 3 "") 1 12,
           dows := parseCronField (fields.getD 4 "") 0 6 }
  else none

/-- The parsed field sets of the expression `"0 0 29 2 *"` (midnight on
every February 29). -/
def feb29Sets : CronSets :=
  { minutes := [0], hours := [0], doms := [29], months := [2],
    dows := [0, 1, 2, 3, 4, 5, 6] }

/-- The candidate test inside `cron_next`'s scan loop, in the source's
order of conjuncts. -/
def cronMatches (s : CronSets) (t : Int) : Bool :=
  s.months.contains (monthOf t) && s.doms.contains (dayOf t) &&
  s.dows.contains (weekdayOf t) && s.hours.contains (hourOf t) &&
  s.minutes.contains (minuteOf t)

/-- The minute-by-minute scan loop `while candidate < limit` of
`cron_next`. The loop body runs at most 527041 times (366 days of
minutes starting strictly after `after`), so any fuel of at least
527042 makes this the exact loop. -/
def cronScan (s : CronSets) (limit : Int) : Nat → Int → Option Int
  | 0, _ => none
  | fuel + 1, candidate =>
      if candidate < limit then
        if cronMatches s candidate then some candidate
        else cronScan s limit fuel (candidate + msPerMinute)
      else none

def scanFuel : Nat := 527042

/-- Scan start: `after + 1 minute`, truncated to the start of its minute
(`date_naive().and_time(hms(hour, minute, 0))`; the `from_hms_opt` there
can never fail since hour and minute are in range). -/
def cronStart (after : Int) : Int :=
  ((after + msPerMinute) / msPerMinute) * msPerMinute

def cronLimit (after : Int) : Int := after + 366 * msPerDay

/-- src/cron.rs `cron_next`. -/
def cronNext (expr : String) (after : Int) : Option Int :=
  match parseCronSets expr with
  | none => none
  | some s =>
      if s.minutes = [] ∨ s.hours = [] ∨ s.doms = [] ∨ s.months = [] ∨ s.dows = [] then none
      else cronScan s (cronLimit after) scanFuel (cronStart after)

/-- src/cron.rs `compute_next_run`. In the `Every` branch the source
divides by `interval_ms` with `i64` division; `elapsed ≥ 0` there, so
truncating division coincides with `Int.ediv` (an `interval_ms` of zero
panics in Rust, which is why the theorems assume it positive). -/
def computeNextRun : Schedule → Int → Option Int
  | .atTime a, after => if a > after then some a else none
  | .every intervalMs anchor, after =>
      let base := anchor.getD after
      if base > after then some base
      else
        let elapsed := after - base
        let periods := elapsed / (intervalMs : Int) + 1
        some (base + periods * (intervalMs : Int))
  | .cron expr, after => cronNext expr after

/-- A schedule the code can evaluate without panicking: `Every` intervals
must be positive (the source divides by them). -/
def Schedule.wfSched : Schedule → Prop
  | .every i _ => 0 < i
  | _ => True

/-- A cron expression with five fields, all parsing to non-empty value
sets — the code's notion of not-malformed. -/
def cronWellFormed (expr : String) : Bool :=
  match parseCronSets expr with
  | some s =>
      ¬(s.minutes = [] ∨ s.hours = [] ∨ s.doms = [] ∨ s.months = [] ∨ s.dows = [])
  | none => false

/-- The field-satisfaction guarantee for results of `Cron` schedules. -/
def cronFieldsSat : Schedule → Int → Prop
  | .cron e, r => ∀ s, parseCronSets e = some s → cronMatches s r = true
  | _, _ => True

/-- Ceiling division on integers (for a positive divisor), used to state
the spec's `Every` formula. -/
def ceilDivInt (a b : Int) : Int := (a + b - 1) / b

/-- Modelled from the spec's words (§4.6): for an `Every{interval,
anchor}` schedule with `base = anchor ?? after ≤ after`, the spec says the
next run is base advanced by `ceil((after − base)/interval + 1)`
intervals. -/
def specEveryNext (intervalMs : Nat) (base after : Int) : Int :=
  base + (ceilDivInt (after - base) (intervalMs : Int) + 1) * (intervalMs : Int)

/-! ## Tool dispatch (src/tools/mod.rs) and agent turn loop (src/agent.rs) -/

instance {ε α : Type} [DecidableEq ε] [DecidableEq α] : DecidableEq (Except ε α) := fun a b =>
  match a, b with
  | .error e, .error f =>
      if h : e = f then isTrue (by rw [h])
      else isFalse (fun hc => h (Except.error.inj hc))
  | .ok x, .ok y =>
      if h : x = y then isTrue (by rw [h])
      else isFalse (fun hc => h (Except.ok.inj hc))
  | .error _, .ok _ => isFalse (fun hc => Except.noConfusion hc)
  | .ok _, .error _ => isFalse (fun hc => Except.noConfusion hc)

structure Reply where
  content : List ContentBlock
  usage : Usage
deriving DecidableEq, Repr

structure TurnResult where
  text : String
  usage : Usage
deriving DecidableEq, Repr

def containsSubAux (pat : List Char) : List Char → Bool
  | [] => pat.isEmpty
  | c :: rest => pat.isPrefixOf (c :: rest) || containsSubAux pat rest

/-- Rust `str::contains` for a literal pattern. -/
def strContainsSub (hay pat : String) : Bool :=
  containsSubAux pat.data hay.data

/-- The context-size signal test of src/agent.rs `run_turn`
(`err_str.contains("tool_use_id") || err_str.contains("too long") ||
err_str.contains("token")`). -/
def matchesContextSignal (e : String) : Bool :=
  strContainsSub e "tool_use_id" || strContainsSub e "too long" ||
    strContainsSub e "token"

/-- The `tool_calls` extraction of src/agent.rs `run_turn`:
`(id, name, input)` of every ToolUse block, in emission order. -/
def extractToolCalls (content : List ContentBlock) : List (String × String × String) :=
  content.filterMap fun b =>
    match b with
    | .toolUse id name input => some (id, name, input)
    | _ => none

/-- The no-tools return value: all Text blocks joined with `""`. -/
def extractText (content : List ContentBlock) : String :=
  String.join (content.filterMap fun b =>
    match b with
    | .text t => some t
    | _ => none)

/-- Tool dispatch (src/tools/mod.rs `execute_tool`): a name → function
table; a name absent from the table is the error `"Unknown tool: NAME"`
(`anyhow::bail!`). The concrete tools are effectful and enter the model
as the table's functions `(input JSON text) → Result<output text>`. -/
def executeTool (registry : List (String × (String → Except String String)))
    (name : String) (input : String) : Except String String :=
  match registry.lookup name with
  | some f => f input
  | none => .error ("Unknown tool: " ++ name)

/-- How src/agent.rs folds one tool outcome into `(content, is_error)`:
`Ok(o) => (o, false)`, `Err(e) => (format!("Error: {e}"), true)`. -/
def toolOutcome (r : Except String String) : String × Bool :=
  match r with
  | .ok output => (output, false)
  | .error e => ("Error: " ++ e, true)

/-- The tool round-trip loop of src/agent.rs `run_turn` (lines 163-183):
each call is dispatched in order and appended as a ToolResult paired by
the emitting ToolUse's id. -/
def applyToolCalls (exec : String → String → Except String String)
    (ctx : ContextManager) (calls : List (String × String × String)) : ContextManager :=
  calls.foldl
    (fun c call =>
      let out := toolOutcome (exec call.2.1 call.2.2)
      c.addToolResult call.1 out.1 out.2)
    ctx

/-- The proactive compaction check before each client call
(src/agent.rs: `if estimated_tokens() > 80_000 { compact(6) }`). -/
def precompact (ctx : ContextManager) : ContextManager :=
  if ctx.estimatedTokens > 80000 then ctx.compact 6 else ctx

/-- Usage accumulation into the conversation counters plus appending the
assistant reply (src/agent.rs lines 120-127). -/
def assistantStep (ctx : ContextManager) (resp : Reply) : ContextManager :=
  ({ ctx with
      totalInputTokens := ctx.totalInputTokens + resp.usage.inputTokens,
      totalOutputTokens := ctx.totalOutputTokens + resp.usage.outputTokens
    }).addAssistantMessage resp.content

def usageZero : Usage := { inputTokens := 0, outputTokens := 0 }

/-- The loop of src/agent.rs `AgentLoop::run_turn`, as a function of the
scripted client outcomes (the successive results of
`client.send_message`) and the tool executor. `turns` counts completed
loop entries; each iteration — including the compact-and-retry path,
which in the source reaches the `turns += 1` at the top of the loop via
`continue` — consumes one script entry and increments the counter. A
turn needing more client calls than the script holds is the
distinguished error `"[script exhausted]"`. -/
def runLoop (maxTurns : Nat) (exec : String → String → Except String String) :
    List (Except String Reply) → Nat → Usage → ContextManager →
      Except String (TurnResult × ContextManager)
  | [], turns, totalUsage, ctx =>
    if turns + 1 > maxTurns then
      .ok ({ text := "[Turn limit reached]", usage := totalUsage }, ctx)
    else .error "[script exhausted]"
  | .error e :: rest, turns, totalUsage, ctx =>
    if turns + 1 > maxTurns then
      .ok ({ text := "[Turn limit reached]", usage := totalUsage }, ctx)
    else
      if matchesContextSignal e then
        runLoop maxTurns exec rest (turns + 1) totalUsage ((precompact ctx).compact 4)
      else .error e
  | .ok resp :: rest, turns, totalUsage, ctx =>
    if turns + 1 > maxTurns then
      .ok ({ text := "[Turn limit reached]", usage := totalUsage }, ctx)
    else
      let ctx3 := assistantStep (precompact ctx) resp
      let calls := extractToolCalls resp.content
      if calls.isEmpty then
        .ok ({ text := extractText resp.content, usage := totalUsage.addU resp.usage }, ctx3)
      else
        runLoop maxTurns exec rest (turns + 1) (totalUsage.addU resp.usage)
          (applyToolCalls exec ctx3 calls)

/-- src/agent.rs `run_turn`: append the user message, then loop. -/
def runTurn (maxTurns : Nat) (exec : String → String → Except String String)
    (script : List (Except String Reply)) (ctx : ContextManager)
    (userMessage : String) : Except String (TurnResult × ContextManager) :=
  runLoop maxTurns exec script 0 usageZero (ctx.addUserMessage userMessage)

/-- Modelled from the spec's words (§4.4 step c, "does not increment
`turns`"): identical to `runLoop` except that the compact-and-retry path
re-enters the loop with the turn counter unchanged. Used only to compare
the spec's description against the source's behavior. -/
def runLoopSpecRetry (maxTurns : Nat) (exec : String → String → Except String String) :
    List (Except String Reply) → Nat → Usage → ContextManager →
      Except String (TurnResult × ContextManager)
  | [], turns, totalUsage, ctx =>
    if turns + 1 > maxTurns then
      .ok ({ text := "[Turn limit reached]", usage := totalUsage }, ctx)
    else .error "[script exhausted]"
  | .error e :: rest, turns, totalUsage, ctx =>
    if turns + 1 > maxTurns then
      .ok ({ text := "[Turn limit reached]", usage := totalUsage }, ctx)
    else
      if matchesContextSignal e then
        runLoopSpecRetry maxTurns exec rest turns totalUsage ((precompact ctx).compact 4)
      else .error e
  | .ok resp :: rest, turns, totalUsage, ctx =>
    if turns + 1 > maxTurns then
      .ok ({ text := "[Turn limit reached]", usage := totalUsage }, ctx)
    else
      let ctx3 := assistantStep (precompact ctx) resp
      let calls := extractToolCalls resp.content
      if calls.isEmpty then
        .ok ({ text := extractText resp.content, usage := totalUsage.addU resp.usage }, ctx3)
      else
        runLoopSpecRetry maxTurns exec rest (turns + 1) (totalUsage.addU resp.usage)
          (applyToolCalls exec ctx3 calls)

def runTurnSpecRetry (maxTurns : Nat) (exec : String → String → Except String String)
    (script : List (Except String Reply)) (ctx : ContextManager)
    (userMessage : String) : Except String (TurnResult × ContextManager) :=
  runLoopSpecRetry maxTurns exec script 0 usageZero (ctx.addUserMessage userMessage)

/-- Sum of reply usages, front to back. -/
def sumUsage (rs : List Reply) : Usage :=
  rs.foldr (fun r acc => r.usage.addU acc) usageZero

/-- Every reply in the list carries at least one ToolUse block. -/
def allToolRepliesB (rs : List Reply) : Bool :=
  rs.all fun r => !(extractToolCalls r.content).isEmpty

/-! Concrete agent-loop data used in witnesses and counterexamples. -/

def emptyCtx : ContextManager :=
  { messages := [], totalInputTokens := 0, totalOutputTokens := 0 }

/-- A tool executor whose table knows only `"shell"`. -/
def demoRegistry : List (String × (String → Except String String)) :=
  [("shell", fun _ => .ok "shell-output")]

def helloReply : Reply :=
  { content := [ContentBlock.text "hello"], usage := { inputTokens := 5, outputTokens := 7 } }

def toolReply : Reply :=
  { content := [ContentBlock.text "calling",
      ContentBlock.toolUse "id1" "shell" "{}",
      ContentBlock.toolUse "id2" "missing_tool" "{}"],
    usage := { inputTokens := 3, outputTokens := 4 } }

/-- A client error whose message matches the context-size signal set. -/
def overflowErr : String := "prompt is too long: 210000 tokens"

/-! ## Chat reply post-processing (src/cli/serve.rs `handle_message`) -/

/-- The reply shaping before sending (src/cli/serve.rs lines 208-220):
an empty agent reply becomes `"[No response]"`, and a reply over 4000
characters is cut to its first 4000 with the trailing
`"...\n\n_(truncated)_"` marker. -/
def formatReply (text : String) : String :=
  let reply := if text = "" then "[No response]" else text
  if reply.length > 4000 then strTake reply 4000 ++ "...\n\n_(truncated)_" else reply

/-- A 4001-character reply. -/
def reply4001 : String := String.mk (List.replicate 4001 'a')

/-- A 4000-character reply. -/
def reply4000 : String := String.mk (List.replicate 4000 'b')

/-! ## Scoped task storage (src/memory.rs `TaskStorage`)

Filesystem model: absolute paths are lists of components; the state holds
the set of existing directories and an association list from file paths
to contents. The storage trees contain no symlinks, so Rust
`Path::canonicalize` is lexical `..` resolution plus an existence check
of every traversed component. -/

abbrev FsPath := List String

structure FS where
  dirs : List FsPath
  files : List (FsPath × String)
deriving DecidableEq, Repr

def dirExists (fs : FS) (p : FsPath) : Bool := fs.dirs.contains p

def fileExists (fs : FS) (p : FsPath) : Bool := fs.files.any (fun e => e.1 == p)

def findFile (files : List (FsPath × String)) (p : FsPath) : Option String :=
  (files.find? (fun e => e.1 == p)).map (fun e => e.2)

def lookupFile (fs : FS) (p : FsPath) : Option String := findFile fs.files p

/-- Path components of a Rust path string: split on `/`, dropping the
empty and `.` components (as Rust `Path::components` does). -/
def parsePath (s : String) : List String :=
  ((splitPredAux (fun c => c = '/') s.data []).map String.mk).filter
    (fun c => !(c == "" || c == "."))

def isAbsolutePath (s : String) : Bool :=
  match s.data with
  | '/' :: _ => true
  | _ => false

/-- Rust `PathBuf::join`: an absolute right-hand side replaces the base. -/
def joinPath (root : FsPath) (p : String) : List String :=
  if isAbsolutePath p then parsePath p else root ++ parsePath p

/-- One step of lexical `..` resolution against an absolute base. -/
def normStep (acc : FsPath) (c : String) : FsPath :=
  if c = ".." then acc.dropLast else acc ++ [c]

def normalizePath (p : List String) : FsPath := p.foldl normStep []

/-- Rust `Path::parent()`: drop the last component (lexically). -/
def lexParent (p : List String) : List String := p.dropLast

/-- Rust `Path::file_name()`: the last component, unless it is `..`
(then `None`, which `resolve` turns into the empty component via
`unwrap_or_default` — modelled by the empty list, since joining the
empty component leaves the path unchanged). -/
def fileNameOf (p : List String) : List String :=
  match p.getLast? with
  | some c => if c = ".." then [] else [c]
  | none => []

/-- `std::fs::create_dir_all` on a possibly-`..`-containing path: the OS
resolves component by component, creating every missing directory it
traverses — the normalization of every prefix. A component blocked by an
existing file stops the walk (the callers discard the error: `.ok()`). -/
def createDirAllGo (fs : FS) (cur : FsPath) : List String → FS
  | [] => fs
  | c :: rest =>
      if fileExists fs (normStep cur c) then fs
      else
        createDirAllGo
          (if dirExists fs (normStep cur c) then fs
            else { fs with dirs := fs.dirs ++ [normStep cur c] })
          (normStep cur c) rest

def createDirAll (fs : FS) (p : List String) : FS := createDirAllGo fs [] p

/-- Rust `Path::canonicalize` in the symlink-free model: walk the
components, requiring every intermediate resolution to be an existing
directory and the final resolution to exist at all. -/
def canonicalizeGo (fs : FS) (cur : FsPath) : List String → Option FsPath
  | [] => if dirExists fs cur || fileExists fs cur then some cur else none
  | c :: rest =>
      if dirExists fs cur then canonicalizeGo fs (normStep cur c) rest else none

def canonicalize (fs : FS) (p : List String) : Option FsPath :=
  canonicalizeGo fs [] p

inductive StorageErr where
  | pathEscape
  | ioFailure
deriving DecidableEq, Repr

structure TaskStorage where
  root : FsPath
  global : Bool
deriving DecidableEq, Repr

/-- The containment check at the end of src/memory.rs
`TaskStorage::resolve`: canonicalize the root (falling back to the raw
root), and require `canonical.starts_with(canon_root)`; any violation is
the PathEscape error. -/
def TaskStorage.checkRoot (st : TaskStorage) (fs : FS) (c : FsPath) :
    FS × Except StorageErr FsPath :=
  let canonRoot := (canonicalize fs st.root).getD st.root
  if canonRoot.isPrefixOf c then (fs, .ok c) else (fs, .error .pathEscape)

/-- src/memory.rs `TaskStorage::resolve`: join the input onto the root,
create the parent directory of the unchecked joined path, canonicalize
the full path — falling back, when the target does not exist yet, to
canonicalizing the parent and re-attaching the file name — and then
perform the root-prefix check. Note that the `create_dir_all` side
effects precede the check. -/
def TaskStorage.resolve (st : TaskStorage) (fs : FS) (path : String) :
    FS × Except StorageErr FsPath :=
  let full := joinPath st.root path
  let fs1 := if full ≠ [] then createDirAll fs (lexParent full) else fs
  match canonicalize fs1 full with
  | some c => st.checkRoot fs1 c
  | none =>
      if full ≠ [] then
        let fs2 := createDirAll fs1 (lexParent full)
        match canonicalize fs2 (lexParent full) with
        | some cp => st.checkRoot fs2 (cp ++ fileNameOf full)
        | none => (fs2, .error .ioFailure)
      else (fs1, .error .ioFailure)

/-- Update-or-append a file entry. -/
def setFile (files : List (FsPath × String)) (p : FsPath) (content : String) :
    List (FsPath × String) :=
  if files.any (fun e => e.1 == p) then
    files.map (fun e => if e.1 == p then (p, content) else e)
  else files ++ [(p, content)]

/-- src/memory.rs `TaskStorage::write_file` (text mode; base64 decoding
is an input transformation orthogonal to path containment). Writing over
an existing directory is an I/O error. -/
def TaskStorage.writeFile (st : TaskStorage) (fs : FS) (path content : String) :
    FS × Except StorageErr Unit :=
  match st.resolve fs path with
  | (fs1, .error e) => (fs1, .error e)
  | (fs1, .ok full) =>
      let fs2 := if full ≠ [] then createDirAll fs1 (lexParent full) else fs1
      if dirExists fs2 full then (fs2, .error .ioFailure)
      else ({ fs2 with files := setFile fs2.files full content }, .ok ())

/-- src/memory.rs `TaskStorage::read_file` (contents are text in the
model, so the base64 fallback for non-UTF-8 data never fires). -/
def TaskStorage.readFile (st : TaskStorage) (fs : FS) (path : String) :
    FS × Except StorageErr String :=
  match st.resolve fs path with
  | (fs1, .error e) => (fs1, .error e)
  | (fs1, .ok full) =>
      match lookupFile fs1 full with
      | some s => (fs1, .ok s)
      | none => (fs1, .error .ioFailure)

/-- Recursive relative listing under `dir` (src/memory.rs
`collect_files`): every file under `dir`, with the canonical root
stripped when it prefixes the file (`strip_prefix(root).unwrap_or`). -/
def collectFiles (fs : FS) (dir : FsPath) (canonRoot : FsPath) : List FsPath :=
  (fs.files.filter (fun e => dir.isPrefixOf e.1)).map
    (fun e => if canonRoot.isPrefixOf e.1 then e.1.drop canonRoot.length else e.1)

/-- src/memory.rs `TaskStorage::list_files`. -/
def TaskStorage.listFiles (st : TaskStorage) (fs : FS) (subdir : Option String) :
    FS × Except StorageErr (List FsPath) :=
  match subdir with
  | some s =>
      match st.resolve fs s with
      | (fs1, .error e) => (fs1, .error e)
      | (fs1, .ok dir) =>
          if dirExists fs1 dir || fileExists fs1 dir then
            (fs1, .ok (collectFiles fs1 dir ((canonicalize fs1 st.root).getD st.root)))
          else (fs1, .ok [])
  | none =>
      let fs1 := createDirAll fs st.root
      let dir := (canonicalize fs1 st.root).getD st.root
      if dirExists fs1 dir || fileExists fs1 dir then
        (fs1, .ok (collectFiles fs1 dir ((canonicalize fs1 st.root).getD st.root)))
      else (fs1, .ok [])

/-- src/memory.rs `TaskStorage::delete_file`: `remove_dir_all` for a
directory (the whole subtree disappears), `remove_file` otherwise
(failing when nothing is there). -/
def TaskStorage.deleteFile (st : TaskStorage) (fs : FS) (path : String) :
    FS × Except StorageErr Unit :=
  match st.resolve fs path with
  | (fs1, .error e) => (fs1, .error e)
  | (fs1, .ok full) =>
      if dirExists fs1 full then
        ({ dirs := fs1.dirs.filter (fun d => !(full.isPrefixOf d)),
           files := fs1.files.filter (fun e => !(full.isPrefixOf e.1)) }, .ok ())
      else
        match lookupFile fs1 full with
        | some _ =>
            ({ fs1 with files := fs1.files.filter (fun e => !(e.1 == full)) }, .ok ())
        | none => (fs1, .error .ioFailure)

/-- A component that is a plain name. -/
def cleanComp (c : String) : Prop := c ≠ ".." ∧ c ≠ "." ∧ c ≠ ""

def cleanPath (p : FsPath) : Prop := ∀ c ∈ p, cleanComp c

/-- Well-formed filesystem state: the root directory exists, stored paths
are normalized, directories are closed under prefixes, every file's
proper prefixes are directories, and no path is both file and directory. -/
def FS.WF (fs : FS) : Prop :=
  ([] ∈ fs.dirs) ∧
  (∀ d ∈ fs.dirs, cleanPath d) ∧
  (∀ d ∈ fs.dirs, ∀ n, n ≤ d.length → d.take n ∈ fs.dirs) ∧
  (∀ e ∈ fs.files, cleanPath e.1) ∧
  (∀ e ∈ fs.files, ∀ n, n < e.1.length → e.1.take n ∈ fs.dirs) ∧
  (∀ e ∈ fs.files, e.1 ∉ fs.dirs)

instance (c : String) : Decidable (cleanComp c) := by
  unfold cleanComp
  infer_instance

instance (p : FsPath) : Decidable (cleanPath p) := by
  unfold cleanPath
  exact List.decidableBAll _ p

instance (fs : FS) : Decidable fs.WF := by
  unfold FS.WF
  infer_instance

/-! Concrete storage data used in witnesses and counterexamples. -/

/-- A scoped storage rooted at `/tmp/t/storage`. -/
def demoStorage : TaskStorage := { root := ["tmp", "t", "storage"], global := false }

/-- The filesystem holding just the storage root (and its ancestors). -/
def demoFS : FS :=
  { dirs := [[], ["tmp"], ["tmp", "t"], ["tmp", "t", "storage"]], files := [] }

/-- The filesystem state after `resolve`'s first `create_dir_all`
(an abbreviation for stating lemmas about `resolve`). -/
def resolveFs1 (st : TaskStorage) (fs : FS) (p : String) : FS :=
  if joinPath st.root p ≠ [] then createDirAll fs (lexParent (joinPath st.root p)) else fs

/-- The filesystem state after `resolve`'s second `create_dir_all`
(the fallback branch). -/
def resolveFs2 (st : TaskStorage) (fs : FS) (p : String) : FS :=
  createDirAll (resolveFs1 st fs p) (lexParent (joinPath st.root p))

/-! ## Theorems about the context store -/

theorem charSum_append (l₁ l₂ : List Message) :
    (((l₁ ++ l₂).flatMap Message.content).map blockChars).sum
      = ((l₁.flatMap Message.content).map blockChars).sum
        + ((l₂.flatMap Message.content).map blockChars).sum := by
  simp

/-- C6 (amended): `estimated_tokens` is monotone non-decreasing across
`add_user_message`, `add_assistant_message` and `add_tool_result`. -/
theorem estimatedTokens_monotone_add (ctx : ContextManager) (s : String)
    (blocks : List ContentBlock) (id c : String) (e : Bool) :
    ctx.estimatedTokens ≤ (ctx.addUserMessage s).estimatedTokens ∧
    ctx.estimatedTokens ≤ (ctx.addAssistantMessage blocks).estimatedTokens ∧
    ctx.estimatedTokens ≤ (ctx.addToolResult id c e).estimatedTokens := by
  refine ⟨?_, ?_, ?_⟩ <;>
    · simp only [ContextManager.estimatedTokens, ContextManager.addUserMessage,
        ContextManager.addAssistantMessage, ContextManager.addToolResult, charSum_append]
      exact Nat.div_le_div_right (Nat.le_add_right _ _)

/-- C6 (counterexample): compacting a short conversation of one-character
messages makes the token estimate strictly larger, refuting "compact(k)
never increases the estimate". -/
theorem compact_can_increase_estimate :
    tiny8.estimatedTokens < (tiny8.compact 6).estimatedTokens := by decide

/-- C5: when the conversation has more than `keep_recent + 1` messages,
`compact` leaves exactly two messages — a user message holding the textual
summary (with the cumulative token-usage header) and an assistant
acknowledgement — and no ToolUse or ToolResult block survives. -/
theorem compact_seeds_two_messages (ctx : ContextManager) (k : Nat)
    (h : ctx.messages.length > k + 1) :
    (ctx.compact k).messages =
        [ { role := .user, content := [ContentBlock.text (compactSummary ctx k)] },
          { role := .assistant, content := [ContentBlock.text ackText] } ] ∧
    (ctx.compact k).messages.length = 2 ∧
    toolBlockCount (ctx.compact k).messages = 0 := by
  unfold ContextManager.compact
  rw [if_neg (by omega)]
  exact ⟨rfl, rfl, rfl⟩

/-- Witness for C5: the spec's concrete scenario — a 20-message
conversation with three interleaved (ToolUse, ToolResult) pairs,
compacted with `compact(6)`. -/
theorem compact_seeds_two_messages_witness :
    toolBlockCount demo20.messages = 6 ∧
    demo20.messages.length > 6 + 1 ∧
    ((demo20.compact 6).messages =
        [ { role := .user, content := [ContentBlock.text (compactSummary demo20 6)] },
          { role := .assistant, content := [ContentBlock.text ackText] } ] ∧
    (demo20.compact 6).messages.length = 2 ∧
    toolBlockCount (demo20.compact 6).messages = 0) :=
  ⟨by decide, by decide, compact_seeds_two_messages demo20 6 (by decide)⟩

/-- C10: for a conversation of at most `keep_recent + 1` messages,
`compact` is the identity — messages and cumulative token counters are
unchanged, however large the token estimate is. -/
theorem compact_short_identity (ctx : ContextManager) (k : Nat)
    (h : ctx.messages.length ≤ k + 1) :
    ctx.compact k = ctx := by
  unfold ContextManager.compact
  rw [if_pos h]

/-- Witness for C10: a 2-message conversation holding ~400k characters —
its estimate is far above the 80 000 threshold, yet `compact(6)` does not
shrink it at all. -/
theorem compact_short_identity_witness :
    shortHuge.messages.length ≤ 6 + 1 ∧
    shortHuge.estimatedTokens > 80000 ∧
    shortHuge.compact 6 = shortHuge := by
  exact ⟨by decide, by decide, compact_short_identity shortHuge 6 (by decide)⟩

/-! ## Theorems about the cron wheel -/

theorem cronScan_some (s : CronSets) (limit : Int) :
    ∀ (fuel : Nat) (c r : Int), cronScan s limit fuel c = some r →
      cronMatches s r = true ∧ c ≤ r ∧ r < limit := by
  intro fuel
  induction fuel with
  | zero => intro c r h; simp [cronScan] at h
  | succ fuel ih =>
      intro c r h
      unfold cronScan at h
      by_cases hc : c < limit
      · rw [if_pos hc] at h
        by_cases hm : cronMatches s c = true
        · rw [if_pos hm] at h
          obtain rfl : c = r := Option.some.inj h
          exact ⟨hm, le_refl _, hc⟩
        · rw [if_neg hm] at h
          obtain ⟨hm', hle, hlt⟩ := ih _ _ h
          refine ⟨hm', ?_, hlt⟩
          have hmsp : msPerMinute = 60000 := rfl
          omega
      · rw [if_neg hc] at h
        exact absurd h (by simp)

theorem cronScan_none_forall (s : CronSets) (limit : Int) :
    ∀ (fuel : Nat) (c : Int), cronScan s limit fuel c = none →
      limit ≤ c + fuel * msPerMinute →
      ∀ k : Nat, c + k * msPerMinute < limit →
        cronMatches s (c + k * msPerMinute) = false := by
  have hms : msPerMinute = 60000 := rfl
  intro fuel
  induction fuel with
  | zero =>
      intro c _ hfuel k hk
      exfalso
      rw [hms] at hfuel hk
      push_cast at hfuel hk
      omega
  | succ fuel ih =>
      intro c hnone hfuel k hk
      unfold cronScan at hnone
      by_cases hc : c < limit
      · rw [if_pos hc] at hnone
        by_cases hm : cronMatches s c = true
        · rw [if_pos hm] at hnone
          exact absurd hnone (by simp)
        · rw [if_neg hm] at hnone
          cases k with
          | zero =>
              have hmf : cronMatches s c = false := by simpa using hm
              simpa using hmf
          | succ k =>
              have hfuel' : limit ≤ (c + msPerMinute) + fuel * msPerMinute := by
                rw [hms] at hfuel ⊢
                push_cast at hfuel ⊢
                omega
              have hk' : (c + msPerMinute) + k * msPerMinute < limit := by
                rw [hms] at hk ⊢
                push_cast at hk ⊢
                omega
              have h1 := ih (c + msPerMinute) hnone hfuel' k hk'
              have heq : c + msPerMinute + (k : Int) * msPerMinute
                  = c + ((k : Nat) + 1 : Nat) * msPerMinute := by
                rw [hms]
                push_cast
                ring
              rw [heq] at h1
              exact h1
      · rw [if_neg hc] at hnone
        exfalso
        rw [hms] at hk
        omega

theorem cronScan_none_of_nomatch (s : CronSets) (limit c0 : Int)
    (hno : ∀ t, c0 ≤ t → t < limit → cronMatches s t = false) :
    ∀ (fuel : Nat) (c : Int), c0 ≤ c → cronScan s limit fuel c = none := by
  have hms : msPerMinute = 60000 := rfl
  intro fuel
  induction fuel with
  | zero => intro c _; rfl
  | succ fuel ih =>
      intro c hc
      unfold cronScan
      by_cases hlt : c < limit
      · rw [if_pos hlt]
        have hmf : cronMatches s c = false := hno c hc hlt
        rw [if_neg (by rw [hmf]; exact Bool.false_ne_true)]
        exact ih (c + msPerMinute) (by rw [hms]; omega)
      · rw [if_neg hlt]

theorem cronStart_gt (after : Int) : after < cronStart after := by
  unfold cronStart
  have h1 := Int.ediv_add_emod (after + msPerMinute) msPerMinute
  have h2 : 0 ≤ (after + msPerMinute) % msPerMinute :=
    Int.emod_nonneg _ (by norm_num [msPerMinute])
  have h3 : (after + msPerMinute) % msPerMinute < msPerMinute :=
    Int.emod_lt_of_pos _ (by norm_num [msPerMinute])
  norm_num [msPerMinute] at h1 h2 h3 ⊢
  omega

theorem cronStart_le (after : Int) : cronStart after ≤ after + msPerMinute := by
  unfold cronStart
  have h1 := Int.ediv_add_emod (after + msPerMinute) msPerMinute
  have h2 : 0 ≤ (after + msPerMinute) % msPerMinute :=
    Int.emod_nonneg _ (by norm_num [msPerMinute])
  norm_num [msPerMinute] at h1 h2 ⊢
  omega

theorem scanFuel_sufficient (after : Int) :
    cronLimit after ≤ cronStart after + scanFuel * msPerMinute := by
  have h := cronStart_gt after
  unfold cronLimit scanFuel
  norm_num [msPerMinute, msPerDay] at h ⊢
  omega

/-- C4 (amended): `compute_next_run` (for a schedule the code can evaluate
without panicking) returns either `None` — for an `At` whose instant is
not after `t`, or for a `Cron` that is malformed or has no matching
minute inside the 366-day scan window — or an instant strictly greater
than `t`, and for a `Cron` schedule every field of the expression is
satisfied at the returned instant. -/
theorem compute_next_run_future (S : Schedule) (t : Int) (hwf : S.wfSched) :
    (∀ r, computeNextRun S t = some r → t < r ∧ cronFieldsSat S r) ∧
    (computeNextRun S t = none →
      (∃ a, S = .atTime a ∧ a ≤ t) ∨
      (∃ e, S = .cron e ∧ (cronWellFormed e = false ∨
        (∀ s, parseCronSets e = some s → ∀ k : Nat,
          cronStart t + k * msPerMinute < cronLimit t →
          cronMatches s (cronStart t + k * msPerMinute) = false)))) := by
  cases S with
  | atTime a =>
      by_cases h : a > t
      · refine ⟨?_, ?_⟩
        · intro r hr
          simp only [computeNextRun, if_pos h] at hr
          obtain rfl : a = r := Option.some.inj hr
          exact ⟨h, trivial⟩
        · intro hn
          simp [computeNextRun, if_pos h] at hn
      · refine ⟨?_, ?_⟩
        · intro r hr
          simp [computeNextRun, if_neg h] at hr
        · intro _
          exact Or.inl ⟨a, rfl, by omega⟩
  | every i anchor =>
      have hi : (0 : Int) < (i : Int) := by
        have : 0 < i := hwf
        exact_mod_cast this
      refine ⟨?_, ?_⟩
      · intro r hr
        by_cases hb : anchor.getD t > t
        · simp only [computeNextRun, if_pos hb] at hr
          obtain rfl : anchor.getD t = r := Option.some.inj hr
          exact ⟨hb, trivial⟩
        · simp only [computeNextRun, if_neg hb] at hr
          set base := anchor.getD t with hbase
          set q := (t - base) / (i : Int) with hq
          obtain rfl : base + (q + 1) * (i : Int) = r := Option.some.inj hr
          refine ⟨?_, trivial⟩
          have h1 := Int.ediv_add_emod (t - base) (i : Int)
          have h2 : 0 ≤ (t - base) % (i : Int) := Int.emod_nonneg _ (ne_of_gt hi)
          have h3 : (t - base) % (i : Int) < (i : Int) := Int.emod_lt_of_pos _ hi
          have hval : base + (q + 1) * (i : Int)
              = t - (t - base) % (i : Int) + (i : Int) := by
            rw [hq]
            linear_combination h1
          rw [hval]
          omega
      · intro hn
        exfalso
        by_cases hb : anchor.getD t > t
        · simp [computeNextRun, if_pos hb] at hn
        · simp [computeNextRun, if_neg hb] at hn
  | cron e =>
      cases hp : parseCronSets e with
      | none =>
          refine ⟨?_, ?_⟩
          · intro r hr
            simp [computeNextRun, cronNext, hp] at hr
          · intro _
            refine Or.inr ⟨e, rfl, Or.inl ?_⟩
            simp [cronWellFormed, hp]
      | some s =>
          by_cases hempty : s.minutes = [] ∨ s.hours = [] ∨ s.doms = [] ∨
              s.months = [] ∨ s.dows = []
          · refine ⟨?_, ?_⟩
            · intro r hr
              simp [computeNextRun, cronNext, hp, if_pos hempty] at hr
            · intro _
              refine Or.inr ⟨e, rfl, Or.inl ?_⟩
              simp [cronWellFormed, hp, hempty]
          · refine ⟨?_, ?_⟩
            · intro r hr
              simp only [computeNextRun, cronNext, hp, if_neg hempty] at hr
              obtain ⟨hm, hle, _⟩ := cronScan_some s (cronLimit t) scanFuel _ r hr
              refine ⟨lt_of_lt_of_le (cronStart_gt t) hle, ?_⟩
              intro s' hs'
              rw [hp] at hs'
              obtain rfl : s = s' := Option.some.inj hs'
              exact hm
            · intro hn
              simp only [computeNextRun, cronNext, hp, if_neg hempty] at hn
              refine Or.inr ⟨e, rfl, Or.inr ?_⟩
              intro s' hs' k hk
              rw [hp] at hs'
              obtain rfl : s = s' := Option.some.inj hs'
              exact cronScan_none_forall s (cronLimit t) scanFuel _ hn
                (scanFuel_sufficient t) k hk

/-- Witness for C4's theorem: an `Every{60000 ms}` schedule at `t = 0`. -/
theorem compute_next_run_future_witness :
    Schedule.wfSched (.every 60000 none) ∧
    ((∀ r, computeNextRun (.every 60000 none) 0 = some r →
        0 < r ∧ cronFieldsSat (.every 60000 none) r) ∧
    (computeNextRun (.every 60000 none) 0 = none →
      (∃ a, (Schedule.every 60000 none) = .atTime a ∧ a ≤ 0) ∨
      (∃ e, (Schedule.every 60000 none) = .cron e ∧ (cronWellFormed e = false ∨
        (∀ s, parseCronSets e = some s → ∀ k : Nat,
          cronStart 0 + k * msPerMinute < cronLimit 0 →
          cronMatches s (cronStart 0 + k * msPerMinute) = false))))) :=
  ⟨by norm_num [Schedule.wfSched],
   compute_next_run_future (.every 60000 none) 0 (by norm_num [Schedule.wfSched])⟩

/-- C4 (counterexample): the expression `"0 0 29 2 *"` (midnight, February
29) is well-formed — five fields, all non-empty value sets — yet
`compute_next_run` returns `None` at 2026-02-01T12:03:00Z, because the
366-day scan window from there contains no leap day. `None` is therefore
not confined to past `At` schedules and malformed `Cron` expressions. -/
theorem no_feb29_window : ∀ k : Nat, k < 367 →
    ¬((civilFromDays (20485 + (k : Int))).2.1 = 2 ∧
      (civilFromDays (20485 + (k : Int))).2.2 = 29) := by
  decide

theorem cron_none_wellformed :
    cronWellFormed "0 0 29 2 *" = true ∧
    computeNextRun (.cron "0 0 29 2 *") 1769947380000 = none := by
  constructor
  · decide
  · have hp : parseCronSets "0 0 29 2 *" = some feb29Sets := by decide
    have hcond : ¬(feb29Sets.minutes = [] ∨ feb29Sets.hours = [] ∨ feb29Sets.doms = []
        ∨ feb29Sets.months = [] ∨ feb29Sets.dows = []) := by decide
    have hstart : cronStart 1769947380000 = 1769947440000 := by decide
    have hlimit : cronLimit 1769947380000 = 1801569780000 := by decide
    show cronNext "0 0 29 2 *" 1769947380000 = none
    unfold cronNext
    rw [hp]
    show (if feb29Sets.minutes = [] ∨ feb29Sets.hours = [] ∨ feb29Sets.doms = []
        ∨ feb29Sets.months = [] ∨ feb29Sets.dows = [] then none
      else cronScan feb29Sets (cronLimit 1769947380000) scanFuel
        (cronStart 1769947380000)) = none
    rw [if_neg hcond, hstart, hlimit]
    refine cronScan_none_of_nomatch feb29Sets 1801569780000 1769947440000 ?_
      scanFuel 1769947440000 le_rfl
    intro u h1 h2
    have hD : msPerDay = 86400000 := rfl
    have hz1 : (20485 : Int) ≤ daysSinceEpoch u := by
      have hm1 : (1769947440000 : Int) / msPerDay ≤ u / msPerDay :=
        Int.ediv_le_ediv (by rw [hD]; norm_num) h1
      have hlo : (1769947440000 : Int) / msPerDay = 20485 := by rw [hD]; decide
      unfold daysSinceEpoch
      omega
    have hz2 : daysSinceEpoch u ≤ 20851 := by
      have hm2 : u / msPerDay ≤ (1801569779999 : Int) / msPerDay :=
        Int.ediv_le_ediv (by rw [hD]; norm_num) (by omega)
      have hhi : (1801569779999 : Int) / msPerDay = 20851 := by rw [hD]; decide
      unfold daysSinceEpoch
      omega
    have hk : (daysSinceEpoch u - 20485).toNat < 367 := by omega
    have hrepr : (20485 : Int) + ((daysSinceEpoch u - 20485).toNat : Int)
        = daysSinceEpoch u := by omega
    have hno := no_feb29_window (daysSinceEpoch u - 20485).toNat hk
    rw [hrepr] at hno
    by_cases hmo : monthOf u = 2
    · by_cases hda : dayOf u = 29
      · exact absurd ⟨hmo, hda⟩ hno
      · simp [cronMatches, feb29Sets, hda]
    · simp [cronMatches, feb29Sets, hmo]

/-- C8 (counterexample): for `Every{interval = 60000 ms, anchor = 0}` at
`after = 30000`, the code returns 60000 (floor division plus one
interval), while the spec's `ceil((after − base)/interval + 1)` formula
predicts 120000. -/
theorem every_ceil_counterexample :
    computeNextRun (.every 60000 (some 0)) 30000 = some 60000 ∧
    specEveryNext 60000 0 30000 = 120000 ∧
    (60000 : Int) ≠ (120000 : Int) :=
  ⟨by decide, by decide, by decide⟩

/-- C8 (amended): for `Every{interval, anchor}` with positive interval
and `base = anchor ?? after`, the code returns `base` when `base > after`
and otherwise advances `base` by `floor((after − base)/interval) + 1`
intervals — the least multiple of the interval past `base` that lies
strictly after `after` (so the result exceeds `after` by at most one
interval). -/
theorem every_next_run (i : Nat) (anchor : Option Int) (after : Int)
    (hi : 0 < i) (base : Int) (hbase : base = anchor.getD after) :
    (after < base → computeNextRun (.every i anchor) after = some base) ∧
    (base ≤ after →
      computeNextRun (.every i anchor) after
        = some (base + ((after - base) / (i : Int) + 1) * (i : Int)) ∧
      after < base + ((after - base) / (i : Int) + 1) * (i : Int) ∧
      base + ((after - base) / (i : Int) + 1) * (i : Int) ≤ after + (i : Int) ∧
      (∀ k : Int, after < base + k * (i : Int) →
        base + ((after - base) / (i : Int) + 1) * (i : Int) ≤ base + k * (i : Int))) := by
  subst hbase
  have hI : (0 : Int) < (i : Int) := by exact_mod_cast hi
  constructor
  · intro hgt
    simp only [computeNextRun, if_pos hgt]
  · intro hle
    have hngt : ¬(anchor.getD after > after) := not_lt.mpr hle
    set base := anchor.getD after with hbase
    set q := (after - base) / (i : Int) with hq
    have h1 := Int.ediv_add_emod (after - base) (i : Int)
    have h2 : 0 ≤ (after - base) % (i : Int) := Int.emod_nonneg _ (ne_of_gt hI)
    have h3 : (after - base) % (i : Int) < (i : Int) := Int.emod_lt_of_pos _ hI
    have hval : base + (q + 1) * (i : Int)
        = after - (after - base) % (i : Int) + (i : Int) := by
      rw [hq]
      linear_combination h1
    refine ⟨?_, ?_, ?_, ?_⟩
    · simp only [computeNextRun, if_neg hngt]
    · rw [hval]; omega
    · rw [hval]; omega
    · intro k hk
      have hqk : q + 1 ≤ k := by
        have hx : (i : Int) * q ≤ after - base := by
          nlinarith [h1, h2]
        have hy : (i : Int) * q < (i : Int) * k := by nlinarith [hk, hx]
        have : q < k := lt_of_mul_lt_mul_left hy (le_of_lt hI)
        omega
      have := mul_le_mul_of_nonneg_right hqk (le_of_lt hI)
      linarith

/-- Witness for C8's theorem: interval 60000 ms, anchor 0, after 30000. -/
theorem every_next_run_witness :
    0 < 60000 ∧ (0 : Int) = (some (0 : Int)).getD 30000 ∧
    ((30000 : Int) < 0 → computeNextRun (.every 60000 (some 0)) 30000 = some 0) ∧
    ((0 : Int) ≤ 30000 →
      computeNextRun (.every 60000 (some 0)) 30000
        = some (0 + (((30000 : Int) - 0) / (60000 : Int) + 1) * (60000 : Int)) ∧
      (30000 : Int) < 0 + (((30000 : Int) - 0) / (60000 : Int) + 1) * (60000 : Int) ∧
      0 + (((30000 : Int) - 0) / (60000 : Int) + 1) * (60000 : Int) ≤ 30000 + (60000 : Int) ∧
      (∀ k : Int, (30000 : Int) < 0 + k * (60000 : Int) →
        0 + (((30000 : Int) - 0) / (60000 : Int) + 1) * (60000 : Int) ≤ 0 + k * (60000 : Int))) :=
  ⟨by decide, rfl,
   (every_next_run 60000 (some 0) 30000 (by decide) 0 rfl).1,
   (every_next_run 60000 (some 0) 30000 (by decide) 0 rfl).2⟩

/-! ## Theorems about the agent turn loop -/

theorem usage_addU_zero (u : Usage) : u.addU usageZero = u := by
  cases u
  simp [Usage.addU, usageZero]

theorem usage_zero_addU (u : Usage) : usageZero.addU u = u := by
  cases u
  simp [Usage.addU, usageZero]

theorem usage_addU_assoc (a b c : Usage) :
    (a.addU b).addU c = a.addU (b.addU c) := by
  cases a; cases b; cases c
  simp [Usage.addU, Nat.add_assoc]

theorem runLoopLimit (maxTurns : Nat) (exec : String → String → Except String String)
    (script : List (Except String Reply)) (turns : Nat) (u : Usage)
    (ctx : ContextManager) (h : turns + 1 > maxTurns) :
    runLoop maxTurns exec script turns u ctx
      = .ok ({ text := "[Turn limit reached]", usage := u }, ctx) := by
  cases script with
  | nil =>
      unfold runLoop
      rw [if_pos h]
  | cons r rest =>
      cases r with
      | error e =>
          unfold runLoop
          rw [if_pos h]
      | ok resp =>
          unfold runLoop
          rw [if_pos h]

theorem runLoopOkStep (maxTurns : Nat) (exec : String → String → Except String String)
    (resp : Reply) (rest : List (Except String Reply)) (turns : Nat) (u : Usage)
    (ctx : ContextManager) (h : turns + 1 ≤ maxTurns) :
    runLoop maxTurns exec (.ok resp :: rest) turns u ctx
      = (if (extractToolCalls resp.content).isEmpty then
          .ok ({ text := extractText resp.content, usage := u.addU resp.usage },
            assistantStep (precompact ctx) resp)
        else
          runLoop maxTurns exec rest (turns + 1) (u.addU resp.usage)
            (applyToolCalls exec (assistantStep (precompact ctx) resp)
              (extractToolCalls resp.content))) := by
  conv_lhs => unfold runLoop
  rw [if_neg (by omega)]

theorem runLoopErrStep (maxTurns : Nat) (exec : String → String → Except String String)
    (e : String) (rest : List (Except String Reply)) (turns : Nat) (u : Usage)
    (ctx : ContextManager) (h : turns + 1 ≤ maxTurns) :
    runLoop maxTurns exec (.error e :: rest) turns u ctx
      = (if matchesContextSignal e then
          runLoop maxTurns exec rest (turns + 1) u ((precompact ctx).compact 4)
        else .error e) := by
  conv_lhs => unfold runLoop
  rw [if_neg (by omega)]

theorem applyToolCalls_messages (exec : String → String → Except String String) :
    ∀ (calls : List (String × String × String)) (ctx : ContextManager),
      (applyToolCalls exec ctx calls).messages
        = ctx.messages ++ calls.map (fun call =>
            { role := Role.user,
              content := [ContentBlock.toolResult call.1
                (toolOutcome (exec call.2.1 call.2.2)).1
                (if (toolOutcome (exec call.2.1 call.2.2)).2 then some true
                  else none)] }) := by
  intro calls
  induction calls with
  | nil => intro ctx; simp [applyToolCalls]
  | cons c cs ih =>
      intro ctx
      have hstep : applyToolCalls exec ctx (c :: cs)
          = applyToolCalls exec
              (ctx.addToolResult c.1 (toolOutcome (exec c.2.1 c.2.2)).1
                (toolOutcome (exec c.2.1 c.2.2)).2) cs := rfl
      rw [hstep, ih]
      simp [ContextManager.addToolResult, List.append_assoc]

/-- C3 (amended): when the streaming client call fails with an error
whose message matches the context-size signal set ("tool_use_id",
"too long" or "token"), the loop invokes `context.compact(4)` and retries
the client call — but the retry re-enters the top of the loop, so it
does increment the turn counter; a client error not matching those
signals aborts the turn with that error. -/
theorem client_error_compact_retry (maxTurns : Nat)
    (exec : String → String → Except String String) (e : String)
    (rest : List (Except String Reply)) (turns : Nat) (u : Usage)
    (ctx : ContextManager) (h : turns + 1 ≤ maxTurns) :
    runLoop maxTurns exec (.error e :: rest) turns u ctx
      = (if matchesContextSignal e then
          runLoop maxTurns exec rest (turns + 1) u ((precompact ctx).compact 4)
        else .error e) :=
  runLoopErrStep maxTurns exec e rest turns u ctx h

/-- Witness for C3's theorem at a concrete signal-matching error. -/
theorem client_error_compact_retry_witness :
    0 + 1 ≤ 1 ∧
    runLoop 1 (executeTool demoRegistry) [.error overflowErr] 0 usageZero emptyCtx
      = (if matchesContextSignal overflowErr then
          runLoop 1 (executeTool demoRegistry) [] (0 + 1) usageZero
            ((precompact emptyCtx).compact 4)
        else .error overflowErr) :=
  ⟨by decide,
   client_error_compact_retry 1 (executeTool demoRegistry) overflowErr [] 0
     usageZero emptyCtx (by decide)⟩

/-- C3 (counterexample): with `max_turns = 1` and a script of one
signal-matching client error followed by a successful reply, the source's
loop — whose `continue` re-runs the `turns += 1` at the loop top —
returns "[Turn limit reached]", while a loop that retried without
incrementing the counter (the claim's wording) would return the reply
text "hello". -/
theorem retry_increments_turns_counterexample :
    runTurn 1 (executeTool demoRegistry) [.error overflowErr, .ok helloReply]
        emptyCtx "hi"
      = .ok ({ text := "[Turn limit reached]", usage := usageZero },
          { messages := [{ role := .user, content := [ContentBlock.text "hi"] }],
            totalInputTokens := 0, totalOutputTokens := 0 }) ∧
    runTurnSpecRetry 1 (executeTool demoRegistry)
        [.error overflowErr, .ok helloReply] emptyCtx "hi"
      = .ok ({ text := "hello", usage := { inputTokens := 5, outputTokens := 7 } },
          { messages := [{ role := .user, content := [ContentBlock.text "hi"] },
              { role := .assistant, content := [ContentBlock.text "hello"] }],
            totalInputTokens := 5, totalOutputTokens := 7 }) ∧
    ("[Turn limit reached]" : String) ≠ "hello" :=
  ⟨by decide, by decide, by decide⟩

/-- C2: inside a turn, a tool invocation that returns an error — a tool
name missing from the registry included — never aborts the turn: each
dispatch is appended as a ToolResult paired by the emitting ToolUse's id,
with is_error = true and the error text exactly when the tool failed, and
the loop proceeds to the next client call. -/
theorem tool_errors_not_fatal
    (registry : List (String × (String → Except String String)))
    (maxTurns : Nat) (rest : List (Except String Reply)) (turns : Nat)
    (u : Usage) (ctx : ContextManager) (resp : Reply)
    (hturn : turns + 1 ≤ maxTurns)
    (hcalls : extractToolCalls resp.content ≠ []) :
    runLoop maxTurns (executeTool registry) (.ok resp :: rest) turns u ctx
      = runLoop maxTurns (executeTool registry) rest (turns + 1) (u.addU resp.usage)
          (applyToolCalls (executeTool registry)
            (assistantStep (precompact ctx) resp) (extractToolCalls resp.content)) ∧
    (applyToolCalls (executeTool registry) (assistantStep (precompact ctx) resp)
        (extractToolCalls resp.content)).messages
      = (assistantStep (precompact ctx) resp).messages
          ++ (extractToolCalls resp.content).map (fun call =>
              { role := Role.user,
                content := [ContentBlock.toolResult call.1
                  (toolOutcome (executeTool registry call.2.1 call.2.2)).1
                  (if (toolOutcome (executeTool registry call.2.1 call.2.2)).2
                    then some true else none)] }) ∧
    (∀ call ∈ extractToolCalls resp.content, registry.lookup call.2.1 = none →
      toolOutcome (executeTool registry call.2.1 call.2.2)
        = ("Error: " ++ ("Unknown tool: " ++ call.2.1), true)) := by
  refine ⟨?_, applyToolCalls_messages _ _ _, ?_⟩
  · rw [runLoopOkStep maxTurns (executeTool registry) resp rest turns u ctx hturn]
    rw [if_neg (by simp [List.isEmpty_iff, hcalls])]
  · intro call _ hlook
    simp [executeTool, hlook, toolOutcome]

/-- Witness for C2's theorem: a reply invoking the known tool `"shell"`
and the unknown tool `"missing_tool"` against a registry knowing only
`"shell"`. -/
theorem tool_errors_not_fatal_witness :
    0 + 1 ≤ 1 ∧ extractToolCalls toolReply.content ≠ [] ∧
    (runLoop 1 (executeTool demoRegistry) (.ok toolReply :: []) 0 usageZero emptyCtx
      = runLoop 1 (executeTool demoRegistry) [] (0 + 1) (usageZero.addU toolReply.usage)
          (applyToolCalls (executeTool demoRegistry)
            (assistantStep (precompact emptyCtx) toolReply)
            (extractToolCalls toolReply.content)) ∧
    (applyToolCalls (executeTool demoRegistry)
        (assistantStep (precompact emptyCtx) toolReply)
        (extractToolCalls toolReply.content)).messages
      = (assistantStep (precompact emptyCtx) toolReply).messages
          ++ (extractToolCalls toolReply.content).map (fun call =>
              { role := Role.user,
                content := [ContentBlock.toolResult call.1
                  (toolOutcome (executeTool demoRegistry call.2.1 call.2.2)).1
                  (if (toolOutcome (executeTool demoRegistry call.2.1 call.2.2)).2
                    then some true else none)] }) ∧
    (∀ call ∈ extractToolCalls toolReply.content,
        demoRegistry.lookup call.2.1 = none →
      toolOutcome (executeTool demoRegistry call.2.1 call.2.2)
        = ("Error: " ++ ("Unknown tool: " ++ call.2.1), true))) :=
  ⟨by decide, by decide,
   tool_errors_not_fatal demoRegistry 1 [] 0 usageZero emptyCtx toolReply
     (by decide) (by decide)⟩

theorem sumUsage_append_single (rs : List Reply) (r : Reply) :
    sumUsage (rs ++ [r]) = (sumUsage rs).addU r.usage := by
  induction rs with
  | nil =>
      show r.usage.addU usageZero = usageZero.addU r.usage
      rw [usage_addU_zero, usage_zero_addU]
  | cons x xs ih =>
      show x.usage.addU (sumUsage (xs ++ [r])) = (x.usage.addU (sumUsage xs)).addU r.usage
      rw [ih, usage_addU_assoc]

theorem runLoopConsume (maxTurns : Nat) (exec : String → String → Except String String) :
    ∀ (replies : List Reply) (rest : List (Except String Reply)) (turns : Nat)
      (u : Usage) (ctx : ContextManager),
      allToolRepliesB replies = true →
      turns + replies.length ≤ maxTurns →
      ∃ ctx2, runLoop maxTurns exec (replies.map .ok ++ rest) turns u ctx
        = runLoop maxTurns exec rest (turns + replies.length)
            (u.addU (sumUsage replies)) ctx2 := by
  intro replies
  induction replies with
  | nil =>
      intro rest turns u ctx _ _
      refine ⟨ctx, ?_⟩
      have h0 : u.addU (sumUsage []) = u := usage_addU_zero u
      simp [h0]
  | cons r rs ih =>
      intro rest turns u ctx hall hlen
      rw [List.length_cons] at hlen
      have hturn : turns + 1 ≤ maxTurns := by omega
      have hall2 := hall
      simp only [allToolRepliesB, List.all_cons, Bool.and_eq_true] at hall2
      obtain ⟨hr, hrs⟩ := hall2
      have hcall : (extractToolCalls r.content).isEmpty = false := by
        simpa using hr
      obtain ⟨ctx2, heq⟩ := ih rest (turns + 1) (u.addU r.usage)
        (applyToolCalls exec (assistantStep (precompact ctx) r)
          (extractToolCalls r.content)) (by simpa [allToolRepliesB] using hrs)
        (by omega)
      refine ⟨ctx2, ?_⟩
      rw [List.map_cons, List.cons_append,
        runLoopOkStep maxTurns exec r _ turns u ctx hturn,
        if_neg (by simp [hcall]), heq]
      have e1 : turns + 1 + rs.length = turns + (r :: rs).length := by
        rw [List.length_cons]; omega
      have e2 : (u.addU r.usage).addU (sumUsage rs) = u.addU (sumUsage (r :: rs)) := by
        rw [usage_addU_assoc]; rfl
      rw [e1, e2]

/-- C7: `run_turn` increments its counter at the top of each iteration
and returns "[Turn limit reached]" with the accumulated usage as soon as
the counter exceeds `max_turns`: a script of `max_turns` tool-using
replies exhausts the budget (the extra iteration consumes no reply),
while a script whose `max_turns`-th reply carries no ToolUse terminates
normally with that reply's concatenated Text blocks and the accumulated
usage. -/
theorem turn_limit_boundary (exec : String → String → Except String String)
    (replies : List Reply) (lastR : Reply) (rest : List (Except String Reply))
    (ctx : ContextManager) (msg : String)
    (hall : allToolRepliesB replies = true) :
    (∃ ctx2, runTurn replies.length exec (replies.map .ok ++ rest) ctx msg
        = .ok ({ text := "[Turn limit reached]", usage := sumUsage replies }, ctx2)) ∧
    (extractToolCalls lastR.content = [] →
      ∃ ctx2, runTurn (replies.length + 1) exec
            (replies.map .ok ++ .ok lastR :: rest) ctx msg
        = .ok ({ text := extractText lastR.content,
                 usage := sumUsage (replies ++ [lastR]) }, ctx2)) := by
  constructor
  · obtain ⟨ctx2, heq⟩ := runLoopConsume replies.length exec replies rest 0 usageZero
      (ctx.addUserMessage msg) hall (by omega)
    refine ⟨ctx2, ?_⟩
    show runLoop replies.length exec (replies.map .ok ++ rest) 0 usageZero
        (ctx.addUserMessage msg) = _
    rw [heq, runLoopLimit _ _ _ _ _ _ (by omega), usage_zero_addU]
  · intro hlast
    obtain ⟨ctx2, heq⟩ := runLoopConsume (replies.length + 1) exec replies
      (.ok lastR :: rest) 0 usageZero (ctx.addUserMessage msg) hall (by omega)
    refine ⟨assistantStep (precompact ctx2) lastR, ?_⟩
    show runLoop (replies.length + 1) exec (replies.map .ok ++ .ok lastR :: rest)
        0 usageZero (ctx.addUserMessage msg) = _
    rw [heq, runLoopOkStep _ _ _ _ _ _ _ (by omega),
      if_pos (by simp [List.isEmpty_iff, hlast]), usage_zero_addU,
      sumUsage_append_single]

/-- Witness for C7's theorem: two tool-using replies against
`max_turns = 2`, and the same with a final text-only reply against
`max_turns = 3`. -/
theorem turn_limit_boundary_witness :
    allToolRepliesB [toolReply, toolReply] = true ∧
    ((∃ ctx2, runTurn ([toolReply, toolReply] : List Reply).length
          (executeTool demoRegistry)
          (([toolReply, toolReply] : List Reply).map .ok ++ []) emptyCtx "go"
        = .ok ({ text := "[Turn limit reached]",
                 usage := sumUsage [toolReply, toolReply] }, ctx2)) ∧
    (extractToolCalls helloReply.content = [] →
      ∃ ctx2, runTurn (([toolReply, toolReply] : List Reply).length + 1)
            (executeTool demoRegistry)
            (([toolReply, toolReply] : List Reply).map .ok ++ .ok helloReply :: [])
            emptyCtx "go"
        = .ok ({ text := extractText helloReply.content,
                 usage := sumUsage ([toolReply, toolReply] ++ [helloReply]) }, ctx2))) :=
  ⟨by decide,
   turn_limit_boundary (executeTool demoRegistry) [toolReply, toolReply]
     helloReply [] emptyCtx "go" (by decide)⟩

/-! ## Theorems about the chat reply cap -/

/-- C9: a reply longer than 4000 characters is truncated to its first
4000 characters with the visible trailing `"...\n\n_(truncated)_"` marker
appended before sending, and a reply of exactly 4000 characters is sent
verbatim. -/
theorem reply_truncation (t : String) :
    (t.length > 4000 → formatReply t = strTake t 4000 ++ "...\n\n_(truncated)_") ∧
    (t.length = 4000 → formatReply t = t) := by
  constructor
  · intro h
    have hne : t ≠ "" := by
      intro he
      subst he
      simp at h
    unfold formatReply
    rw [if_neg hne]
    show (if t.length > 4000 then strTake t 4000 ++ "...\n\n_(truncated)_" else t) = _
    rw [if_pos h]
  · intro h
    have hne : t ≠ "" := by
      intro he
      subst he
      simp at h
    unfold formatReply
    rw [if_neg hne]
    show (if t.length > 4000 then strTake t 4000 ++ "...\n\n_(truncated)_" else t) = t
    rw [if_neg (by omega)]

/-- Witness for C9's theorem: a 4001-character reply is truncated with
the marker; a 4000-character reply goes out verbatim. -/
theorem reply_truncation_witness :
    (reply4001.length > 4000 ∧
      formatReply reply4001 = strTake reply4001 4000 ++ "...\n\n_(truncated)_") ∧
    (reply4000.length = 4000 ∧ formatReply reply4000 = reply4000) := by
  have h1 : reply4001.length > 4000 := by
    show (List.replicate 4001 'a').length > 4000
    rw [List.length_replicate]
    norm_num
  have h2 : reply4000.length = 4000 := by
    show (List.replicate 4000 'b').length = 4000
    rw [List.length_replicate]
  exact ⟨⟨h1, (reply_truncation reply4001).1 h1⟩,
         ⟨h2, (reply_truncation reply4000).2 h2⟩⟩

/-! ## Theorems about the scoped storage -/

theorem createDirAllGo_files (p : List String) :
    ∀ (fs : FS) (cur : FsPath), (createDirAllGo fs cur p).files = fs.files := by
  induction p with
  | nil => intro fs cur; rfl
  | cons c rest ih =>
      intro fs cur
      unfold createDirAllGo
      by_cases hf : fileExists fs (normStep cur c) = true
      · rw [if_pos hf]
      · rw [if_neg hf]
        by_cases hd : dirExists fs (normStep cur c) = true
        · rw [if_pos hd]
          exact ih fs (normStep cur c)
        · rw [if_neg hd, ih]

theorem createDirAllGo_dirs_mono (p : List String) :
    ∀ (fs : FS) (cur : FsPath) (d : FsPath), d ∈ fs.dirs →
      d ∈ (createDirAllGo fs cur p).dirs := by
  induction p with
  | nil => intro fs cur d hd; exact hd
  | cons c rest ih =>
      intro fs cur d hd
      unfold createDirAllGo
      by_cases hf : fileExists fs (normStep cur c) = true
      · rw [if_pos hf]; exact hd
      · rw [if_neg hf]
        by_cases hdir : dirExists fs (normStep cur c) = true
        · rw [if_pos hdir]
          exact ih fs (normStep cur c) d hd
        · rw [if_neg hdir]
          exact ih _ _ d (List.mem_append_left _ hd)

theorem canonicalizeGo_eq_foldl (p : List String) :
    ∀ (fs : FS) (cur c : FsPath), canonicalizeGo fs cur p = some c →
      c = p.foldl normStep cur := by
  induction p with
  | nil =>
      intro fs cur c h
      unfold canonicalizeGo at h
      by_cases he : (dirExists fs cur || fileExists fs cur) = true
      · rw [if_pos he] at h
        exact (Option.some.inj h).symm
      · rw [if_neg he] at h
        exact absurd h (by simp)
  | cons x rest ih =>
      intro fs cur c h
      unfold canonicalizeGo at h
      by_cases hd : dirExists fs cur = true
      · rw [if_pos hd] at h
        exact ih fs (normStep cur x) c h
      · rw [if_neg hd] at h
        exact absurd h (by simp)

theorem dirExists_iff (fs : FS) (p : FsPath) : dirExists fs p = true ↔ p ∈ fs.dirs := by
  simp [dirExists]

theorem canonicalizeGo_of_chain (p : List String) :
    ∀ (fs : FS) (cur : FsPath),
      (∀ k, k ≤ p.length → (p.take k).foldl normStep cur ∈ fs.dirs) →
      canonicalizeGo fs cur p = some (p.foldl normStep cur) := by
  induction p with
  | nil =>
      intro fs cur hch
      have h0 : cur ∈ fs.dirs := by simpa using hch 0 (by simp)
      unfold canonicalizeGo
      rw [if_pos (by rw [(dirExists_iff fs cur).mpr h0]; simp)]
      rfl
  | cons x rest ih =>
      intro fs cur hch
      have h0 : cur ∈ fs.dirs := by simpa using hch 0 (by simp)
      unfold canonicalizeGo
      rw [if_pos ((dirExists_iff fs cur).mpr h0)]
      have hch' : ∀ k, k ≤ rest.length →
          (rest.take k).foldl normStep (normStep cur x) ∈ fs.dirs := by
        intro k hk
        have := hch (k + 1) (by simp; omega)
        simpa [List.take_succ_cons] using this
      exact ih fs (normStep cur x) hch'

theorem foldl_normStep_clean (p : List String) :
    ∀ (cur : FsPath), (∀ c ∈ p, c ≠ "..") → p.foldl normStep cur = cur ++ p := by
  induction p with
  | nil => intro cur _; simp
  | cons x rest ih =>
      intro cur hclean
      have hx : x ≠ ".." := hclean x (by simp)
      show (rest.foldl normStep (normStep cur x)) = cur ++ x :: rest
      rw [ih (normStep cur x) (fun c hc => hclean c (by simp [hc]))]
      simp [normStep, hx]

theorem canonicalize_root_eq (fs : FS) (root : FsPath)
    (hclosed : ∀ n, n ≤ root.length → root.take n ∈ fs.dirs)
    (hclean : ∀ c ∈ root, c ≠ "..") :
    canonicalize fs root = some root := by
  unfold canonicalize
  rw [canonicalizeGo_of_chain root fs []]
  · rw [foldl_normStep_clean root [] hclean]
    simp
  · intro k hk
    rw [foldl_normStep_clean (root.take k) []
      (fun c hc => hclean c (List.mem_of_mem_take hc))]
    simpa using hclosed k hk

theorem fileExists_congr (fs fs' : FS) (h : fs'.files = fs.files) (q : FsPath) :
    fileExists fs' q = fileExists fs q := by
  unfold fileExists
  rw [h]

theorem createDirAllGo_chain (p : List String) :
    ∀ (fs : FS) (cur : FsPath),
      (∀ k, k ≤ p.length → fileExists fs ((p.take k).foldl normStep cur) = false) →
      cur ∈ fs.dirs →
      ∀ k, k ≤ p.length →
        (p.take k).foldl normStep cur ∈ (createDirAllGo fs cur p).dirs := by
  induction p with
  | nil =>
      intro fs cur _ hcur k hk
      have hk0 : k = 0 := by simpa using hk
      subst hk0
      simpa using hcur
  | cons x rest ih =>
      intro fs cur hnb hcur k hk
      unfold createDirAllGo
      have hf : fileExists fs (normStep cur x) = false := by
        have := hnb 1 (by simp)
        simpa using this
      rw [if_neg (by rw [hf]; exact Bool.false_ne_true)]
      set fs1 := if dirExists fs (normStep cur x) = true then fs
        else { fs with dirs := fs.dirs ++ [normStep cur x] } with hfs1
      have hnext : normStep cur x ∈ fs1.dirs := by
        rw [hfs1]
        by_cases hd : dirExists fs (normStep cur x) = true
        · rw [if_pos hd]
          exact (dirExists_iff _ _).mp hd
        · rw [if_neg hd]
          simp
      have hcur1 : cur ∈ fs1.dirs := by
        rw [hfs1]
        by_cases hd : dirExists fs (normStep cur x) = true
        · rw [if_pos hd]; exact hcur
        · rw [if_neg hd]
          exact List.mem_append_left _ hcur
      have hfiles1 : fs1.files = fs.files := by
        rw [hfs1]
        by_cases hd : dirExists fs (normStep cur x) = true
        · rw [if_pos hd]
        · rw [if_neg hd]
      cases k with
      | zero =>
          simpa using createDirAllGo_dirs_mono rest fs1 (normStep cur x) cur hcur1
      | succ k =>
          have hk' : k ≤ rest.length := by simpa using hk
          have hnb' : ∀ j, j ≤ rest.length →
              fileExists fs1 ((rest.take j).foldl normStep (normStep cur x)) = false := by
            intro j hj
            rw [fileExists_congr fs fs1 hfiles1]
            have := hnb (j + 1) (by simpa using Nat.succ_le_succ hj)
            simpa [List.take_succ_cons] using this
          have := ih fs1 (normStep cur x) hnb' hnext k hk'
          simpa [List.take_succ_cons] using this

theorem createDirAll_files (fs : FS) (q : List String) :
    (createDirAll fs q).files = fs.files :=
  createDirAllGo_files q fs []

theorem createDirAll_dirs_mono (fs : FS) (q : List String) (d : FsPath)
    (h : d ∈ fs.dirs) : d ∈ (createDirAll fs q).dirs :=
  createDirAllGo_dirs_mono q fs [] d h

theorem checkRoot_fst (st : TaskStorage) (fs : FS) (c : FsPath) :
    (st.checkRoot fs c).1 = fs := by
  show (if ((canonicalize fs st.root).getD st.root).isPrefixOf c = true
    then (fs, Except.ok c)
    else (fs, Except.error StorageErr.pathEscape)).1 = fs
  split <;> rfl

theorem checkRoot_ok (st : TaskStorage) (fs : FS) (c r : FsPath)
    (hcanon : canonicalize fs st.root = some st.root)
    (h : (st.checkRoot fs c).2 = .ok r) :
    st.root.isPrefixOf r = true ∧ r = c := by
  have h2 : (if st.root.isPrefixOf c = true
      then ((fs, Except.ok c) : FS × Except StorageErr FsPath)
      else (fs, Except.error StorageErr.pathEscape)).2 = .ok r := by
    have h3 : (st.checkRoot fs c).2
        = (if ((canonicalize fs st.root).getD st.root).isPrefixOf c = true
          then ((fs, Except.ok c) : FS × Except StorageErr FsPath)
          else (fs, Except.error StorageErr.pathEscape)).2 := rfl
    rw [h3, hcanon] at h
    exact h
  by_cases hp : st.root.isPrefixOf c = true
  · rw [if_pos hp] at h2
    have hcr : c = r := Except.ok.inj h2
    exact ⟨hcr ▸ hp, hcr.symm⟩
  · rw [if_neg hp] at h2
    exact absurd h2 (by simp)

theorem checkRoot_escape (st : TaskStorage) (fs : FS) (c : FsPath)
    (hcanon : canonicalize fs st.root = some st.root)
    (h : st.root.isPrefixOf c = false) :
    (st.checkRoot fs c).2 = .error .pathEscape := by
  have h3 : (st.checkRoot fs c).2
      = (if ((canonicalize fs st.root).getD st.root).isPrefixOf c = true
        then ((fs, Except.ok c) : FS × Except StorageErr FsPath)
        else (fs, Except.error StorageErr.pathEscape)).2 := rfl
  rw [h3, hcanon]
  simp only [Option.getD_some]
  rw [if_neg (by rw [h]; exact Bool.false_ne_true)]

theorem resolveUnfold (st : TaskStorage) (fs : FS) (p : String) :
    st.resolve fs p
      = match canonicalize (resolveFs1 st fs p) (joinPath st.root p) with
        | some c => st.checkRoot (resolveFs1 st fs p) c
        | none =>
            if joinPath st.root p ≠ [] then
              match canonicalize (resolveFs2 st fs p) (lexParent (joinPath st.root p)) with
              | some cp =>
                  st.checkRoot (resolveFs2 st fs p)
                    (cp ++ fileNameOf (joinPath st.root p))
              | none => (resolveFs2 st fs p, .error .ioFailure)
            else (resolveFs1 st fs p, .error .ioFailure) := rfl

theorem resolveFs1_files (st : TaskStorage) (fs : FS) (p : String) :
    (resolveFs1 st fs p).files = fs.files := by
  unfold resolveFs1
  by_cases h : joinPath st.root p ≠ []
  · rw [if_pos h, createDirAll_files]
  · rw [if_neg h]

theorem resolveFs2_files (st : TaskStorage) (fs : FS) (p : String) :
    (resolveFs2 st fs p).files = fs.files := by
  unfold resolveFs2
  rw [createDirAll_files, resolveFs1_files]

theorem resolveFs1_dirs_mono (st : TaskStorage) (fs : FS) (p : String)
    (d : FsPath) (h : d ∈ fs.dirs) : d ∈ (resolveFs1 st fs p).dirs := by
  unfold resolveFs1
  by_cases hne : joinPath st.root p ≠ []
  · rw [if_pos hne]
    exact createDirAll_dirs_mono fs _ d h
  · rw [if_neg hne]
    exact h

theorem resolveFs2_dirs_mono (st : TaskStorage) (fs : FS) (p : String)
    (d : FsPath) (h : d ∈ fs.dirs) : d ∈ (resolveFs2 st fs p).dirs := by
  unfold resolveFs2
  exact createDirAll_dirs_mono _ _ d (resolveFs1_dirs_mono st fs p d h)

theorem resolve_some (st : TaskStorage) (fs : FS) (p : String) (c : FsPath)
    (hc : canonicalize (resolveFs1 st fs p) (joinPath st.root p) = some c) :
    st.resolve fs p = st.checkRoot (resolveFs1 st fs p) c := by
  rw [resolveUnfold, hc]

theorem resolve_none_some (st : TaskStorage) (fs : FS) (p : String) (cp : FsPath)
    (h0 : canonicalize (resolveFs1 st fs p) (joinPath st.root p) = none)
    (hne : joinPath st.root p ≠ [])
    (hc2 : canonicalize (resolveFs2 st fs p) (lexParent (joinPath st.root p)) = some cp) :
    st.resolve fs p
      = st.checkRoot (resolveFs2 st fs p) (cp ++ fileNameOf (joinPath st.root p)) := by
  rw [resolveUnfold]
  simp only [h0]
  rw [if_pos hne]
  simp only [hc2]

theorem resolve_none_none (st : TaskStorage) (fs : FS) (p : String)
    (h0 : canonicalize (resolveFs1 st fs p) (joinPath st.root p) = none)
    (hne : joinPath st.root p ≠ [])
    (hc2 : canonicalize (resolveFs2 st fs p) (lexParent (joinPath st.root p)) = none) :
    st.resolve fs p = (resolveFs2 st fs p, .error .ioFailure) := by
  rw [resolveUnfold]
  simp only [h0]
  rw [if_pos hne]
  simp only [hc2]

theorem resolve_empty (st : TaskStorage) (fs : FS) (p : String)
    (h0 : canonicalize (resolveFs1 st fs p) (joinPath st.root p) = none)
    (hne : ¬(joinPath st.root p ≠ [])) :
    st.resolve fs p = (resolveFs1 st fs p, .error .ioFailure) := by
  rw [resolveUnfold]
  simp only [h0]
  rw [if_neg hne]

theorem resolve_files_eq (st : TaskStorage) (fs : FS) (p : String) :
    (st.resolve fs p).1.files = fs.files := by
  cases hc : canonicalize (resolveFs1 st fs p) (joinPath st.root p) with
  | some c =>
      rw [resolve_some st fs p c hc, checkRoot_fst]
      exact resolveFs1_files st fs p
  | none =>
      by_cases h : joinPath st.root p ≠ []
      · cases hc2 : canonicalize (resolveFs2 st fs p) (lexParent (joinPath st.root p)) with
        | some cp =>
            rw [resolve_none_some st fs p cp hc h hc2, checkRoot_fst]
            exact resolveFs2_files st fs p
        | none =>
            rw [resolve_none_none st fs p hc h hc2]
            exact resolveFs2_files st fs p
      · rw [resolve_empty st fs p hc h]
        exact resolveFs1_files st fs p

/-- The canonical root stays resolvable in every intermediate state of
`resolve` (needed for the prefix check to compare against the real
root). -/
theorem canon_root_fs1 (st : TaskStorage) (fs : FS) (p : String)
    (hclosed : ∀ n, n ≤ st.root.length → st.root.take n ∈ fs.dirs)
    (hclean : ∀ c ∈ st.root, c ≠ "..") :
    canonicalize (resolveFs1 st fs p) st.root = some st.root :=
  canonicalize_root_eq _ _ (fun n hn => resolveFs1_dirs_mono st fs p _ (hclosed n hn)) hclean

theorem canon_root_fs2 (st : TaskStorage) (fs : FS) (p : String)
    (hclosed : ∀ n, n ≤ st.root.length → st.root.take n ∈ fs.dirs)
    (hclean : ∀ c ∈ st.root, c ≠ "..") :
    canonicalize (resolveFs2 st fs p) st.root = some st.root :=
  canonicalize_root_eq _ _ (fun n hn => resolveFs2_dirs_mono st fs p _ (hclosed n hn)) hclean

/-- A successful `resolve` always lands under the storage root. -/
theorem resolve_ok_prefix (st : TaskStorage) (fs : FS) (p : String) (r : FsPath)
    (hclosed : ∀ n, n ≤ st.root.length → st.root.take n ∈ fs.dirs)
    (hclean : ∀ c ∈ st.root, c ≠ "..")
    (h : (st.resolve fs p).2 = .ok r) :
    st.root.isPrefixOf r = true := by
  cases hc : canonicalize (resolveFs1 st fs p) (joinPath st.root p) with
  | some c =>
      rw [resolve_some st fs p c hc] at h
      exact (checkRoot_ok st _ c r (canon_root_fs1 st fs p hclosed hclean) h).1
  | none =>
      by_cases hne : joinPath st.root p ≠ []
      · cases hc2 : canonicalize (resolveFs2 st fs p) (lexParent (joinPath st.root p)) with
        | some cp =>
            rw [resolve_none_some st fs p cp hc hne hc2] at h
            exact (checkRoot_ok st _ _ r (canon_root_fs2 st fs p hclosed hclean) h).1
        | none =>
            rw [resolve_none_none st fs p hc hne hc2] at h
            exact absurd h (by simp)
      · rw [resolve_empty st fs p hc hne] at h
        exact absurd h (by simp)

theorem findFile_cons (x : FsPath × String) (xs : List (FsPath × String)) (q : FsPath) :
    findFile (x :: xs) q = if (x.1 == q) = true then some x.2 else findFile xs q := by
  unfold findFile
  by_cases hx : (x.1 == q) = true
  · rw [@List.find?_cons_of_pos _ (fun e => e.1 == q) x xs hx, if_pos hx]
    rfl
  · rw [@List.find?_cons_of_neg _ (fun e => e.1 == q) x xs (by simpa using hx), if_neg hx]

theorem findFile_map_set (p q : FsPath) (content : String) (h : q ≠ p) :
    ∀ files : List (FsPath × String),
      findFile (files.map (fun e => if (e.1 == p) = true then (p, content) else e)) q
        = findFile files q := by
  intro files
  induction files with
  | nil => rfl
  | cons e es ih =>
      rw [List.map_cons, findFile_cons, findFile_cons]
      by_cases he : (e.1 == p) = true
      · rw [if_pos he]
        have hpq : (p == q) = false := by
          rw [beq_eq_false_iff_ne]
          exact fun hx => h hx.symm
        have he1 : (e.1 == q) = false := by
          rw [beq_eq_false_iff_ne]
          intro hx
          exact h (hx ▸ (beq_iff_eq.mp he) ▸ rfl)
        rw [if_neg (by rw [hpq]; exact Bool.false_ne_true),
          if_neg (by rw [he1]; exact Bool.false_ne_true)]
        exact ih
      · rw [if_neg he]
        by_cases hq : (e.1 == q) = true
        · rw [if_pos hq, if_pos hq]
        · rw [if_neg hq, if_neg hq]
          exact ih

theorem findFile_append_single (p q : FsPath) (content : String) (h : q ≠ p) :
    ∀ files : List (FsPath × String),
      findFile (files ++ [(p, content)]) q = findFile files q := by
  intro files
  induction files with
  | nil =>
      show findFile [(p, content)] q = none
      rw [findFile_cons]
      rw [if_neg (by rw [show ((p, content).1 == q) = false from
        beq_eq_false_iff_ne.mpr (fun hx => h hx.symm)]; exact Bool.false_ne_true)]
      rfl
  | cons e es ih =>
      rw [List.cons_append, findFile_cons, findFile_cons, ih]

theorem findFile_setFile_ne (files : List (FsPath × String)) (p q : FsPath)
    (content : String) (h : q ≠ p) :
    findFile (setFile files p content) q = findFile files q := by
  unfold setFile
  by_cases ha : files.any (fun e => e.1 == p) = true
  · rw [if_pos ha]
    exact findFile_map_set p q content h files
  · rw [if_neg ha]
    exact findFile_append_single p q content h files

theorem findFile_filter_keep (pred : (FsPath × String) → Bool) (q : FsPath)
    (hkeep : ∀ e : FsPath × String, e.1 = q → pred e = true) :
    ∀ files : List (FsPath × String),
      findFile (files.filter pred) q = findFile files q := by
  intro files
  induction files with
  | nil => rfl
  | cons e es ih =>
      by_cases hq : (e.1 == q) = true
      · rw [List.filter_cons_of_pos (hkeep e (beq_iff_eq.mp hq)),
          findFile_cons, findFile_cons, if_pos hq, if_pos hq]
      · by_cases hp : pred e = true
        · rw [List.filter_cons_of_pos hp, findFile_cons, findFile_cons,
            if_neg hq, if_neg hq]
          exact ih
        · rw [List.filter_cons_of_neg (by simpa using hp), findFile_cons, if_neg hq]
          exact ih

theorem normalizePath_parent_append (full : List String) (hne : full ≠ [])
    (hlast : ∀ c, full.getLast? = some c → c ≠ "..") :
    normalizePath (lexParent full) ++ fileNameOf full = normalizePath full := by
  have hsplit : full.dropLast ++ [full.getLast hne] = full :=
    List.dropLast_append_getLast hne
  have hgl : full.getLast? = some (full.getLast hne) := List.getLast?_eq_getLast full hne
  have hlne : full.getLast hne ≠ ".." := hlast _ hgl
  have hfn : fileNameOf full = [full.getLast hne] := by
    unfold fileNameOf
    rw [hgl]
    simp [hlne]
  rw [hfn]
  unfold normalizePath lexParent
  conv_rhs => rw [← hsplit]
  rw [List.foldl_append]
  show _ = normStep (full.dropLast.foldl normStep []) (full.getLast hne)
  unfold normStep
  rw [if_neg hlne]

/-- A lexically escaping input whose last component is a plain name and
whose parent chain is not blocked by files is rejected with exactly
`PathEscape`. -/
theorem resolve_escape (st : TaskStorage) (fs : FS) (p : String)
    (hrootdir : [] ∈ fs.dirs)
    (hclosed : ∀ n, n ≤ st.root.length → st.root.take n ∈ fs.dirs)
    (hclean : ∀ c ∈ st.root, c ≠ "..")
    (hesc : st.root.isPrefixOf (normalizePath (joinPath st.root p)) = false)
    (hlast : ∀ c, (joinPath st.root p).getLast? = some c → c ≠ "..")
    (hnb : ∀ k, k ≤ (lexParent (joinPath st.root p)).length →
      fileExists fs (((lexParent (joinPath st.root p)).take k).foldl normStep []) = false) :
    (st.resolve fs p).2 = .error .pathEscape := by
  cases hc : canonicalize (resolveFs1 st fs p) (joinPath st.root p) with
  | some c =>
      have hc' : canonicalizeGo (resolveFs1 st fs p) [] (joinPath st.root p) = some c := hc
      have hcf : c = normalizePath (joinPath st.root p) :=
        canonicalizeGo_eq_foldl (joinPath st.root p) _ [] c hc'
      rw [resolve_some st fs p c hc, checkRoot_escape st _ c
        (canon_root_fs1 st fs p hclosed hclean) (by rw [hcf]; exact hesc)]
  | none =>
      have hne : joinPath st.root p ≠ [] := by
        intro hnil
        have h0 : canonicalizeGo (resolveFs1 st fs p) [] [] = some [] := by
          unfold canonicalizeGo
          rw [if_pos (by
            rw [(dirExists_iff _ _).mpr (resolveFs1_dirs_mono st fs p [] hrootdir)]
            simp)]
        have : canonicalize (resolveFs1 st fs p) (joinPath st.root p) = some [] := by
          rw [hnil]
          exact h0
        rw [hc] at this
        exact absurd this (by simp)
      have hnb1 : ∀ k, k ≤ (lexParent (joinPath st.root p)).length →
          fileExists (resolveFs1 st fs p)
            (((lexParent (joinPath st.root p)).take k).foldl normStep []) = false := by
        intro k hk
        rw [fileExists_congr fs _ (resolveFs1_files st fs p)]
        exact hnb k hk
      have hchain : ∀ k, k ≤ (lexParent (joinPath st.root p)).length →
          ((lexParent (joinPath st.root p)).take k).foldl normStep []
            ∈ (resolveFs2 st fs p).dirs := by
        intro k hk
        exact createDirAllGo_chain (lexParent (joinPath st.root p))
          (resolveFs1 st fs p) [] hnb1
          (resolveFs1_dirs_mono st fs p [] hrootdir) k hk
      have hc2 : canonicalize (resolveFs2 st fs p) (lexParent (joinPath st.root p))
          = some ((lexParent (joinPath st.root p)).foldl normStep []) :=
        canonicalizeGo_of_chain (lexParent (joinPath st.root p)) _ [] hchain
      rw [resolve_none_some st fs p _ hc hne hc2]
      apply checkRoot_escape st _ _ (canon_root_fs2 st fs p hclosed hclean)
      have hrw : ((lexParent (joinPath st.root p)).foldl normStep [])
            ++ fileNameOf (joinPath st.root p)
          = normalizePath (joinPath st.root p) :=
        normalizePath_parent_append (joinPath st.root p) hne hlast
      rw [hrw]
      exact hesc

theorem writeFile_err (st : TaskStorage) (fs fs1 : FS) (p content : String)
    (e : StorageErr) (hres : st.resolve fs p = (fs1, .error e)) :
    st.writeFile fs p content = (fs1, .error e) := by
  unfold TaskStorage.writeFile
  rw [hres]

theorem readFile_err (st : TaskStorage) (fs fs1 : FS) (p : String)
    (e : StorageErr) (hres : st.resolve fs p = (fs1, .error e)) :
    st.readFile fs p = (fs1, .error e) := by
  unfold TaskStorage.readFile
  rw [hres]

theorem listFiles_some_err (st : TaskStorage) (fs fs1 : FS) (p : String)
    (e : StorageErr) (hres : st.resolve fs p = (fs1, .error e)) :
    st.listFiles fs (some p) = (fs1, .error e) := by
  show (match st.resolve fs p with
    | (fs1, Except.error e) => (fs1, Except.error e)
    | (fs1, Except.ok dir) =>
        if (dirExists fs1 dir || fileExists fs1 dir) = true
        then (fs1, Except.ok (collectFiles fs1 dir ((canonicalize fs1 st.root).getD st.root)))
        else (fs1, Except.ok []))
    = ((fs1, Except.error e) : FS × Except StorageErr (List FsPath))
  rw [hres]

theorem deleteFile_err (st : TaskStorage) (fs fs1 : FS) (p : String)
    (e : StorageErr) (hres : st.resolve fs p = (fs1, .error e)) :
    st.deleteFile fs p = (fs1, .error e) := by
  unfold TaskStorage.deleteFile
  rw [hres]

theorem writeFile_ok_eq (st : TaskStorage) (fs fs1 : FS) (full : FsPath)
    (p content : String) (hres : st.resolve fs p = (fs1, .ok full)) :
    st.writeFile fs p content
      = (if dirExists (if full ≠ [] then createDirAll fs1 (lexParent full) else fs1)
            full = true
        then ((if full ≠ [] then createDirAll fs1 (lexParent full) else fs1),
          .error .ioFailure)
        else ({ (if full ≠ [] then createDirAll fs1 (lexParent full) else fs1) with
            files := setFile
              (if full ≠ [] then createDirAll fs1 (lexParent full) else fs1).files
              full content }, .ok ())) := by
  unfold TaskStorage.writeFile
  rw [hres]

theorem readFile_ok_eq (st : TaskStorage) (fs fs1 : FS) (full : FsPath) (p : String)
    (hres : st.resolve fs p = (fs1, .ok full)) :
    st.readFile fs p
      = (match lookupFile fs1 full with
        | some s => (fs1, .ok s)
        | none => (fs1, .error .ioFailure)) := by
  unfold TaskStorage.readFile
  rw [hres]

theorem listFiles_some_ok_eq (st : TaskStorage) (fs fs1 : FS) (dir : FsPath) (p : String)
    (hres : st.resolve fs p = (fs1, .ok dir)) :
    st.listFiles fs (some p)
      = (if (dirExists fs1 dir || fileExists fs1 dir) = true
        then (fs1, .ok (collectFiles fs1 dir ((canonicalize fs1 st.root).getD st.root)))
        else (fs1, .ok [])) := by
  show (match st.resolve fs p with
    | (fs1, Except.error e) => (fs1, Except.error e)
    | (fs1, Except.ok dir) =>
        if (dirExists fs1 dir || fileExists fs1 dir) = true
        then (fs1, Except.ok (collectFiles fs1 dir ((canonicalize fs1 st.root).getD st.root)))
        else (fs1, Except.ok []))
    = _
  rw [hres]

theorem deleteFile_ok_eq (st : TaskStorage) (fs fs1 : FS) (full : FsPath) (p : String)
    (hres : st.resolve fs p = (fs1, .ok full)) :
    st.deleteFile fs p
      = (if dirExists fs1 full = true
        then (({ dirs := fs1.dirs.filter (fun d => !(full.isPrefixOf d)),
                 files := fs1.files.filter (fun e => !(full.isPrefixOf e.1)) } : FS), .ok ())
        else match lookupFile fs1 full with
          | some _ =>
              ({ fs1 with files := fs1.files.filter (fun e => !(e.1 == full)) }, .ok ())
          | none => (fs1, .error .ioFailure)) := by
  unfold TaskStorage.deleteFile
  rw [hres]

theorem writeFile_outside (st : TaskStorage) (fs : FS) (p content : String) (q : FsPath)
    (hclosed : ∀ n, n ≤ st.root.length → st.root.take n ∈ fs.dirs)
    (hclean : ∀ c ∈ st.root, c ≠ "..")
    (hq : st.root.isPrefixOf q = false) :
    lookupFile (st.writeFile fs p content).1 q = lookupFile fs q := by
  rcases hres : st.resolve fs p with ⟨fs1, r⟩
  have hfiles1 : fs1.files = fs.files := by
    have h := resolve_files_eq st fs p
    rw [hres] at h
    exact h
  cases r with
  | error e =>
      rw [writeFile_err st fs fs1 p content e hres]
      show findFile fs1.files q = findFile fs.files q
      rw [hfiles1]
  | ok full =>
      have hpre : st.root.isPrefixOf full = true :=
        resolve_ok_prefix st fs p full hclosed hclean (by rw [hres])
      have hqf : q ≠ full := by
        intro hx
        rw [hx, hpre] at hq
        exact Bool.noConfusion hq
      rw [writeFile_ok_eq st fs fs1 full p content hres]
      set F2 := if full ≠ [] then createDirAll fs1 (lexParent full) else fs1 with hF2
      have hf2 : F2.files = fs.files := by
        rw [hF2]
        by_cases h : full ≠ []
        · rw [if_pos h, createDirAll_files, hfiles1]
        · rw [if_neg h, hfiles1]
      by_cases hd : dirExists F2 full = true
      · rw [if_pos hd]
        show findFile F2.files q = findFile fs.files q
        rw [hf2]
      · rw [if_neg hd]
        show findFile (setFile F2.files full content) q = findFile fs.files q
        rw [findFile_setFile_ne F2.files full q content hqf, hf2]

theorem deleteFile_outside (st : TaskStorage) (fs : FS) (p : String) (q : FsPath)
    (hclosed : ∀ n, n ≤ st.root.length → st.root.take n ∈ fs.dirs)
    (hclean : ∀ c ∈ st.root, c ≠ "..")
    (hq : st.root.isPrefixOf q = false) :
    lookupFile (st.deleteFile fs p).1 q = lookupFile fs q := by
  rcases hres : st.resolve fs p with ⟨fs1, r⟩
  have hfiles1 : fs1.files = fs.files := by
    have h := resolve_files_eq st fs p
    rw [hres] at h
    exact h
  cases r with
  | error e =>
      rw [deleteFile_err st fs fs1 p e hres]
      show findFile fs1.files q = findFile fs.files q
      rw [hfiles1]
  | ok full =>
      have hpre : st.root.isPrefixOf full = true :=
        resolve_ok_prefix st fs p full hclosed hclean (by rw [hres])
      have hqf : q ≠ full := by
        intro hx
        rw [hx, hpre] at hq
        exact Bool.noConfusion hq
      have hfq : full.isPrefixOf q = false := by
        cases hfq : full.isPrefixOf q with
        | false => rfl
        | true =>
            exfalso
            have h1 : st.root <+: full := List.isPrefixOf_iff_prefix.mp hpre
            have h2 : full <+: q := List.isPrefixOf_iff_prefix.mp hfq
            have h3 : st.root.isPrefixOf q = true :=
              List.isPrefixOf_iff_prefix.mpr (h1.trans h2)
            rw [h3] at hq
            exact Bool.noConfusion hq
      rw [deleteFile_ok_eq st fs fs1 full p hres]
      by_cases hd : dirExists fs1 full = true
      · rw [if_pos hd]
        show findFile (fs1.files.filter (fun e => !(full.isPrefixOf e.1))) q
          = findFile fs.files q
        rw [findFile_filter_keep _ q (fun e he => by rw [he, hfq]; rfl), hfiles1]
      · rw [if_neg hd]
        cases hlf : lookupFile fs1 full with
        | some s =>
            show findFile (fs1.files.filter (fun e => !(e.1 == full))) q
              = findFile fs.files q
            rw [findFile_filter_keep _ q (fun e he => by
              rw [he, beq_eq_false_iff_ne.mpr hqf]; rfl), hfiles1]
        | none =>
            show findFile fs1.files q = findFile fs.files q
            rw [hfiles1]

theorem readFile_files_eq (st : TaskStorage) (fs : FS) (p : String) :
    (st.readFile fs p).1.files = fs.files := by
  rcases hres : st.resolve fs p with ⟨fs1, r⟩
  have hfiles1 : fs1.files = fs.files := by
    have h := resolve_files_eq st fs p
    rw [hres] at h
    exact h
  cases r with
  | error e =>
      rw [readFile_err st fs fs1 p e hres]
      exact hfiles1
  | ok full =>
      rw [readFile_ok_eq st fs fs1 full p hres]
      cases hlf : lookupFile fs1 full with
      | some s => exact hfiles1
      | none => exact hfiles1

theorem listFiles_files_eq (st : TaskStorage) (fs : FS) (p : String) :
    (st.listFiles fs (some p)).1.files = fs.files := by
  rcases hres : st.resolve fs p with ⟨fs1, r⟩
  have hfiles1 : fs1.files = fs.files := by
    have h := resolve_files_eq st fs p
    rw [hres] at h
    exact h
  cases r with
  | error e =>
      rw [listFiles_some_err st fs fs1 p e hres]
      exact hfiles1
  | ok dir =>
      rw [listFiles_some_ok_eq st fs fs1 dir p hres]
      by_cases hd : (dirExists fs1 dir || fileExists fs1 dir) = true
      · rw [if_pos hd]
        exact hfiles1
      · rw [if_neg hd]
        exact hfiles1

/-- C1 (amended): on a well-formed filesystem whose storage root exists,
(i) a successful resolution always lies under the root; (ii) no file
outside the root is ever created, modified or deleted by write or
delete, and read/list never change any file; (iii) whenever `resolve`
rejects the input, every operation returns that same error and no file
anywhere is touched; (iv) an input whose normalization escapes the root
(with a plain final component and no file blocking the parent chain) is
rejected with exactly `PathEscape`. Parent *directories* of the escaping
path, however, may be created outside the root before the check — see
the counterexample. -/
theorem storage_sandbox (st : TaskStorage) (fs : FS) (p content : String)
    (hwf : fs.WF) (hroot : st.root ∈ fs.dirs) :
    (∀ c, (st.resolve fs p).2 = .ok c → st.root.isPrefixOf c = true) ∧
    (∀ q, st.root.isPrefixOf q = false →
      lookupFile (st.writeFile fs p content).1 q = lookupFile fs q ∧
      lookupFile (st.deleteFile fs p).1 q = lookupFile fs q) ∧
    ((st.readFile fs p).1.files = fs.files) ∧
    ((st.listFiles fs (some p)).1.files = fs.files) ∧
    (∀ e, (st.resolve fs p).2 = .error e →
      (st.writeFile fs p content).2 = .error e ∧
      (st.writeFile fs p content).1.files = fs.files ∧
      (st.readFile fs p).2 = .error e ∧
      (st.listFiles fs (some p)).2 = .error e ∧
      (st.deleteFile fs p).2 = .error e ∧
      (st.deleteFile fs p).1.files = fs.files) ∧
    (st.root.isPrefixOf (normalizePath (joinPath st.root p)) = false →
      (∀ c, (joinPath st.root p).getLast? = some c → c ≠ "..") →
      (∀ k, k ≤ (lexParent (joinPath st.root p)).length →
        fileExists fs (((lexParent (joinPath st.root p)).take k).foldl normStep [])
          = false) →
      (st.resolve fs p).2 = .error .pathEscape) := by
  obtain ⟨hrootdir, hdclean, hdclosed, _, _, _⟩ := hwf
  have hclosed : ∀ n, n ≤ st.root.length → st.root.take n ∈ fs.dirs :=
    fun n hn => hdclosed st.root hroot n hn
  have hclean : ∀ c ∈ st.root, c ≠ ".." :=
    fun c hc => (hdclean st.root hroot c hc).1
  refine ⟨?_, ?_, readFile_files_eq st fs p, listFiles_files_eq st fs p, ?_, ?_⟩
  · intro c hc
    exact resolve_ok_prefix st fs p c hclosed hclean hc
  · intro q hq
    exact ⟨writeFile_outside st fs p content q hclosed hclean hq,
           deleteFile_outside st fs p q hclosed hclean hq⟩
  · intro e he
    rcases hres : st.resolve fs p with ⟨fs1, r⟩
    have hr : r = .error e := by
      rw [hres] at he
      exact he
    subst hr
    have hfiles1 : fs1.files = fs.files := by
      have h := resolve_files_eq st fs p
      rw [hres] at h
      exact h
    refine ⟨?_, ?_, ?_, ?_, ?_, ?_⟩
    · rw [writeFile_err st fs fs1 p content e hres]
    · rw [writeFile_err st fs fs1 p content e hres]
      exact hfiles1
    · rw [readFile_err st fs fs1 p e hres]
    · rw [listFiles_some_err st fs fs1 p e hres]
    · rw [deleteFile_err st fs fs1 p e hres]
    · rw [deleteFile_err st fs fs1 p e hres]
      exact hfiles1
  · intro hesc hlast hnb
    exact resolve_escape st fs p hrootdir hclosed hclean hesc hlast hnb

/-- Witness for C1's theorem: the demo storage rooted at
`/tmp/t/storage` with the escaping input `"../../outside/x"`. -/
theorem storage_sandbox_witness :
    demoFS.WF ∧ demoStorage.root ∈ demoFS.dirs ∧
    ((∀ c, (demoStorage.resolve demoFS "../../outside/x").2 = .ok c →
        demoStorage.root.isPrefixOf c = true) ∧
    (∀ q, demoStorage.root.isPrefixOf q = false →
      lookupFile (demoStorage.writeFile demoFS "../../outside/x" "hi").1 q
        = lookupFile demoFS q ∧
      lookupFile (demoStorage.deleteFile demoFS "../../outside/x").1 q
        = lookupFile demoFS q) ∧
    ((demoStorage.readFile demoFS "../../outside/x").1.files = demoFS.files) ∧
    ((demoStorage.listFiles demoFS (some "../../outside/x")).1.files = demoFS.files) ∧
    (∀ e, (demoStorage.resolve demoFS "../../outside/x").2 = .error e →
      (demoStorage.writeFile demoFS "../../outside/x" "hi").2 = .error e ∧
      (demoStorage.writeFile demoFS "../../outside/x" "hi").1.files = demoFS.files ∧
      (demoStorage.readFile demoFS "../../outside/x").2 = .error e ∧
      (demoStorage.listFiles demoFS (some "../../outside/x")).2 = .error e ∧
      (demoStorage.deleteFile demoFS "../../outside/x").2 = .error e ∧
      (demoStorage.deleteFile demoFS "../../outside/x").1.files = demoFS.files) ∧
    (demoStorage.root.isPrefixOf
        (normalizePath (joinPath demoStorage.root "../../outside/x")) = false →
      (∀ c, (joinPath demoStorage.root "../../outside/x").getLast? = some c → c ≠ "..") →
      (∀ k, k ≤ (lexParent (joinPath demoStorage.root "../../outside/x")).length →
        fileExists demoFS
          (((lexParent (joinPath demoStorage.root "../../outside/x")).take k).foldl
            normStep []) = false) →
      (demoStorage.resolve demoFS "../../outside/x").2 = .error .pathEscape)) :=
  ⟨by decide, by decide,
   storage_sandbox demoStorage demoFS "../../outside/x" "hi" (by decide) (by decide)⟩

/-- C1 (counterexample): resolving the escaping input `"../../outside/x"`
against the root `/tmp/t/storage` fails with PathEscape, as claimed — but
`resolve`'s `create_dir_all` on the unchecked joined path has already
created the directory `/tmp/outside`, a directory outside the root; and
the `..`-containing input `"sub/../a.txt"`, which resolves inside the
root, is not rejected at all. Both falsify "every operation applied to a
path containing `..` ... fails with PathEscape and no file or directory
outside R is created". -/
theorem storage_escape_side_effects :
    (demoStorage.writeFile demoFS "../../outside/x" "hi").2 = .error .pathEscape ∧
    ["tmp", "outside"] ∈ (demoStorage.writeFile demoFS "../../outside/x" "hi").1.dirs ∧
    demoStorage.root.isPrefixOf ["tmp", "outside"] = false ∧
    (demoStorage.writeFile demoFS "sub/../a.txt" "hi").2 = .ok () :=
  ⟨by decide, by decide, by decide, by decide⟩

end DevMan
